import Mathlib

/-!
Verification development for the `digital_librarian` repository
(`src/backend/parse_pdfs.py` and `src/backend/make_bibtex.py`).

The Python code is shallowly embedded over `List Char` / `String`:
pure string manipulations become Lean functions, the external
collaborators (GROBID HTTP service, PDF text extraction) become
explicit inputs (`Except`-valued oracle fields), and the per-batch
mutable key-collision dictionary becomes an explicitly threaded
association list.  All embeddings are ASCII-faithful: Python's
`str.lower`, `\s`, `\w`, `\d` are modelled on their ASCII meaning,
which is the character range the heuristics in the source target.
-/

namespace DL

/-- Python `\s` (ASCII whitespace): space, tab, newline, vertical tab,
form feed, carriage return. -/
def pySpace (c : Char) : Bool :=
  c == ' ' || c == '\t' || c == '\n' || c == '\x0b' || c == '\x0c' || c == '\r'

/-- ASCII lowercasing of one character, as Python `str.lower` acts on ASCII. -/
def lowerChar (c : Char) : Char :=
  if 'A' ≤ c ∧ c ≤ 'Z' then Char.ofNat (c.toNat + 32) else c

/-- ASCII uppercasing of one character, as Python `str.upper` acts on ASCII. -/
def upperChar (c : Char) : Char :=
  if 'a' ≤ c ∧ c ≤ 'z' then Char.ofNat (c.toNat - 32) else c

/-- Python `\d` on ASCII. -/
def isDigitC (c : Char) : Bool :=
  '0' ≤ c && c ≤ '9'

/-- ASCII letter (`[A-Za-z]`). -/
def isAlphaC (c : Char) : Bool :=
  ('a' ≤ c && c ≤ 'z') || ('A' ≤ c && c ≤ 'Z')

/-- Python `\w` on ASCII: letters, digits, underscore. -/
def isWordC (c : Char) : Bool :=
  isAlphaC c || isDigitC c || c == '_'

/-- Python `str.lower` (ASCII). -/
def pyLowerL (l : List Char) : List Char :=
  l.map lowerChar

/-- Does `hay` start with `needle`? (used for Python `str.startswith` and
as the inner step of substring search). -/
def seqStartsWith : List Char → List Char → Bool
  | [], _ => true
  | _ :: _, [] => false
  | a :: as, b :: bs => a == b && seqStartsWith as bs

/-- Python `needle in hay` substring containment. -/
def containsSeq (needle : List Char) : List Char → Bool
  | [] => seqStartsWith needle []
  | c :: cs => seqStartsWith needle (c :: cs) || containsSeq needle cs

/-- Python `hay.find(needle)`: index of the leftmost occurrence, if any. -/
def pyFindPos (needle : List Char) : List Char → Option Nat
  | [] => if seqStartsWith needle [] then some 0 else none
  | c :: cs =>
    if seqStartsWith needle (c :: cs) then some 0
    else
      match pyFindPos needle cs with
      | some i => some (i + 1)
      | none => none

/-- Python `hay.find(needle)` with its `-1` not-found convention. -/
def pyFindInt (needle hay : List Char) : Int :=
  match pyFindPos needle hay with
  | some i => (i : Int)
  | none => -1

/-- Python `hay.endswith(needle)`. -/
def pyEndsWith (needle hay : List Char) : Bool :=
  seqStartsWith needle.reverse hay.reverse

/-- Scanner for Python `re.sub(r"\s{2,}", " ", s)`.  The flag records
that the scanner is inside a whitespace run whose single-blank
replacement has already been emitted.  A maximal whitespace run of
length at least two is replaced by one blank; a lone whitespace
character is kept verbatim. -/
def collapseAux : Bool → List Char → List Char
  | _, [] => []
  | inRun, c :: cs =>
    if pySpace c then
      if inRun then collapseAux true cs
      else
        match cs with
        | d :: _ =>
          if pySpace d then ' ' :: collapseAux true cs
          else c :: collapseAux false cs
        | [] => c :: collapseAux false cs
    else c :: collapseAux false cs

/-- Python `re.sub(r"\s{2,}", " ", s)`. -/
def pyCollapseWs (l : List Char) : List Char :=
  collapseAux false l

/-- Python `str.strip()` (whitespace strip from both ends). -/
def pyStripWs (l : List Char) : List Char :=
  ((l.dropWhile pySpace).reverse.dropWhile pySpace).reverse

/-- `_norm_spaces` from `parse_pdfs.py`:
`re.sub(r"\s{2,}", " ", s).strip()`. -/
def pyNormSpacesL (l : List Char) : List Char :=
  pyStripWs (pyCollapseWs l)

/-- Accumulator-style scanner for Python `str.split()`; `cur` holds the
reversed characters of the word in progress. -/
def splitWsAux (cur : List Char) : List Char → List (List Char)
  | [] => if cur.isEmpty then [] else [cur.reverse]
  | c :: cs =>
    if pySpace c then
      if cur.isEmpty then splitWsAux [] cs else cur.reverse :: splitWsAux [] cs
    else splitWsAux (c :: cur) cs

/-- Python `str.split()` (split on whitespace runs, no empty parts). -/
def pySplitWs (l : List Char) : List (List Char) :=
  splitWsAux [] l

/-- Number of whitespace-delimited words, `len(s.split())`. -/
def pyWordCount (l : List Char) : Nat :=
  (pySplitWs l).length

/-- Python `str.strip(chars)` for an explicit strip set. -/
def pyStripChars (cs : List Char) (l : List Char) : List Char :=
  ((l.dropWhile (· ∈ cs)).reverse.dropWhile (· ∈ cs)).reverse

/-- Python `" ".join(parts)`. -/
def joinSpace (parts : List (List Char)) : List Char :=
  List.intercalate [' '] parts

/-- Python `str.splitlines()` restricted to the ASCII line breaks
(`\r\n`, `\n`, `\r`, `\x0b`, `\x0c`, `\x1c`, `\x1d`, `\x1e`). -/
def pyLineBreak (c : Char) : Bool :=
  c == '\n' || c == '\r' || c == '\x0b' || c == '\x0c' ||
  c == '\x1c' || c == '\x1d' || c == '\x1e'

def pySplitLinesAux (cur : List Char) : List Char → List (List Char)
  | [] => if cur.isEmpty then [] else [cur.reverse]
  | [c] =>
    if pyLineBreak c then cur.reverse :: pySplitLinesAux [] []
    else pySplitLinesAux (c :: cur) []
  | c :: d :: rest =>
    if c == '\r' && d == '\n' then cur.reverse :: pySplitLinesAux [] rest
    else if pyLineBreak c then cur.reverse :: pySplitLinesAux [] (d :: rest)
    else pySplitLinesAux (c :: cur) (d :: rest)

def pySplitLinesL (l : List Char) : List (List Char) :=
  pySplitLinesAux [] l

/-! Regex fragments of `parse_pdfs.py`, compiled by hand.  A regex
`search` is an existence check over start positions; `\b` is decided
from the previous character, which the position scanner carries along. -/

/-- A `\b` word boundary before a pattern that starts with a word
character: holds at the string start or after a non-word character. -/
def bdryBefore : Option Char → Bool
  | none => true
  | some c => !isWordC c

/-- A `\b` word boundary after a pattern that ends with a word
character: holds at the string end or before a non-word character. -/
def wordBoundaryAfter : List Char → Bool
  | [] => false
  | c :: _ => !isWordC c

def wordBoundaryAfter' (l : List Char) : Bool :=
  l.isEmpty || wordBoundaryAfter l

/-- `re.match(rf"^{lit}\b", l)` for a literal `lit` ending in a word
character. -/
def startsWithWordBounded (lit l : List Char) : Bool :=
  seqStartsWith lit l && wordBoundaryAfter' (l.drop lit.length)

/-- Tail of the section-label patterns: `\s*[:,-]`.  The delimiters are
non-word, so the `\b` after the label is implied whenever this matches. -/
def delimAfterWs (rest : List Char) : Bool :=
  match rest.dropWhile pySpace with
  | [] => false
  | d :: _ => d == ':' || d == ',' || d == '-'

/-- `lit` matches at the current position followed by `\s*[:,-]`. -/
def litDelimAt (lit l : List Char) : Bool :=
  seqStartsWith lit l && delimAfterWs (l.drop lit.length)

/-- Position scanner: index of the leftmost position at which `p`
matches, where `p` sees the previous character (for `\b`) and the
remaining suffix. -/
def scanFirstIdx (p : Option Char → List Char → Bool) : Option Char → List Char → Option Nat
  | prev, [] => if p prev [] then some 0 else none
  | prev, c :: cs =>
    if p prev (c :: cs) then some 0
    else
      match scanFirstIdx p (some c) cs with
      | some i => some (i + 1)
      | none => none

/-- `re.search` as an existence check. -/
def searchExists (p : Option Char → List Char → Bool) (l : List Char) : Bool :=
  (scanFirstIdx p none l).isSome

/-- One alternative of `\b(abstract|keywords?)\b\s*[:,-]` matching at the
current position (`parse_pdfs.py` line 167). -/
def abstractKeywordDelimAt (prev : Option Char) (l : List Char) : Bool :=
  bdryBefore prev &&
  (litDelimAt "abstract".toList l ||
   litDelimAt "keywords".toList l ||
   litDelimAt "keyword".toList l)

/-- `re.search(r"\b\d{3}\s?\d{2}\b", s)` matching at the current position
(EU postal code heuristic). -/
def postalAMatchAt (prev : Option Char) (l : List Char) : Bool :=
  bdryBefore prev &&
  match l with
  | d1 :: d2 :: d3 :: rest =>
    isDigitC d1 && isDigitC d2 && isDigitC d3 &&
    ((match rest with
      | d4 :: d5 :: rest2 => isDigitC d4 && isDigitC d5 && wordBoundaryAfter' rest2
      | _ => false) ||
     (match rest with
      | w :: d4 :: d5 :: rest2 =>
        pySpace w && isDigitC d4 && isDigitC d5 && wordBoundaryAfter' rest2
      | _ => false))
  | _ => false

/-- `re.search(r"\b\d{5}(?:-\d{4})?\b", s)` matching at the current
position (US postal code heuristic). -/
def postalBMatchAt (prev : Option Char) (l : List Char) : Bool :=
  bdryBefore prev &&
  match l with
  | d1 :: d2 :: d3 :: d4 :: d5 :: rest =>
    isDigitC d1 && isDigitC d2 && isDigitC d3 && isDigitC d4 && isDigitC d5 &&
    ((match rest with
      | '-' :: e1 :: e2 :: e3 :: e4 :: rest2 =>
        isDigitC e1 && isDigitC e2 && isDigitC e3 && isDigitC e4 &&
        wordBoundaryAfter' rest2
      | _ => false) ||
     wordBoundaryAfter' rest)
  | _ => false

/-- `re.search(r"\b\d{1,5}\s+[A-Za-z]{2,}\b", s)` matching at the current
position ("StreetName 12" heuristic): a digit run of length 1 to 5, at
least one whitespace, a maximal letter run of length at least 2, and a
word boundary after it. -/
def streetMatchAt (prev : Option Char) (l : List Char) : Bool :=
  bdryBefore prev &&
  (let dr := l.takeWhile isDigitC
   let rest := l.dropWhile isDigitC
   decide (1 ≤ dr.length) && decide (dr.length ≤ 5) &&
   (let rest2 := rest.dropWhile pySpace
    decide (1 ≤ (rest.takeWhile pySpace).length) &&
    (let lr := rest2.takeWhile isAlphaC
     let rest3 := rest2.dropWhile isAlphaC
     decide (2 ≤ lr.length) && wordBoundaryAfter' rest3)))

/-- Affiliation keywords of `_looks_like_noise_line` (line 188). -/
def affilKeywords : List String :=
  ["university", "department", "faculty", "institute", "laboratory", "centre", "center"]

/-- Country markers of `_looks_like_noise_line` (line 189). -/
def countryWords : List String :=
  ["republic", "usa", "u.s.", "uk", "germany", "france", "italy", "spain",
   "china", "japan", "canada", "australia", "turkey", "türkiye", "poland"]

/-- `_looks_like_noise_line` from `parse_pdfs.py` (lines 126-192). -/
def looks_like_noise_line (s0 : List Char) : Bool :=
  let s := pyNormSpacesL s0
  let low := pyStripWs (pyLowerL s)
  if s.isEmpty then true
  else if containsSeq "http".toList low || containsSeq "doi".toList low then true
  else if containsSeq "licensed under".toList low ||
          containsSeq "creativecommons".toList low then true
  else if containsSeq "copyright".toList low ||
          containsSeq "rights reserved".toList low then true
  else if containsSeq "proceedings".toList low ||
          containsSeq "edited by".toList low then true
  else if containsSeq "peer reviewed".toList low then true
  else if containsSeq "author:".toList low then true
  else if seqStartsWith "programming language".toList low ||
          seqStartsWith "nature of problem".toList low then true
  else if containsSeq "these authors contributed equally".toList low then true
  else if startsWithWordBounded "abstract".toList low ||
          startsWithWordBounded "keywords".toList low ||
          startsWithWordBounded "keyword".toList low ||
          startsWithWordBounded "key words".toList low then true
  else if searchExists abstractKeywordDelimAt low &&
          pyFindInt "abstract".toList low < 30 then true
  else if containsSeq "@".toList s then true
  else if searchExists postalAMatchAt s || searchExists postalBMatchAt s then true
  else if searchExists streetMatchAt s && containsSeq ",".toList s then true
  else if 3 ≤ s.count ',' && 8 < pyWordCount s then true
  else if (affilKeywords.any fun k => containsSeq k.toList low) &&
          (containsSeq ",".toList s &&
            (s.any isDigitC || countryWords.any fun c => containsSeq c.toList low)) then true
  else false

/-- `_is_section_label_line` from `parse_pdfs.py` (lines 194-207). -/
def is_section_label_line (line : List Char) (label : List Char) : Bool :=
  let low := pyStripWs (pyLowerL line)
  if low.isEmpty then false
  else if startsWithWordBounded label low then true
  else
    match scanFirstIdx (fun prev l => bdryBefore prev && litDelimAt label l) none low with
    | some i => decide (i < 30)
    | none => false

/-! Year extraction (`parse_pdfs.py` lines 24-118). -/

/-- The two leading digits `19`/`20` followed by two digits:
the token shape of `re.findall(r"\b((?:19|20)\d{2})\b", text)`. -/
def yearDigits (c1 c2 c3 c4 : Char) : Bool :=
  ((c1 == '1' && c2 == '9') || (c1 == '2' && c2 == '0')) && isDigitC c3 && isDigitC c4

def digitVal (c : Char) : Nat :=
  c.toNat - '0'.toNat

/-- Left-to-right non-overlapping scan of `re.findall(r"\b((?:19|20)\d{2})\b", text)`:
at each position, a word-bounded four-digit token starting `19`/`20` is
emitted and four characters are consumed, else the scan advances by one. -/
def yearScanAux : Option Char → List Char → List Nat
  | prev, c1 :: c2 :: c3 :: c4 :: rest =>
    if bdryBefore prev && yearDigits c1 c2 c3 c4 && wordBoundaryAfter' rest then
      (1000 * digitVal c1 + 100 * digitVal c2 + 10 * digitVal c3 + digitVal c4) ::
        yearScanAux (some c4) rest
    else yearScanAux (some c1) (c2 :: c3 :: c4 :: rest)
  | _, _ => []

/-- `_year_candidates` from `parse_pdfs.py` (lines 24-33), with the
module clock constant `CURRENT_YEAR` made an explicit parameter `cy`.
(The Python `if not text: return []` early exit is subsumed: the scan of
an empty string yields the empty list.) -/
def year_candidates (cy : Nat) (l : List Char) : List Nat :=
  (yearScanAux none l).filter fun y => decide (1950 ≤ y) && decide (y ≤ cy + 1)

/-- The `MONTHS` vocabulary (`parse_pdfs.py` lines 55-58).  The source
stores it as a Python set; iteration order is immaterial here because
the loop only applies `max` updates. -/
def MONTHS : List String :=
  ["january", "february", "march", "april", "may", "june",
   "july", "august", "september", "october", "november", "december"]

/-- `_score_year_in_line` from `parse_pdfs.py` (lines 63-87). -/
def score_year_in_line (line : List Char) (y : Nat) : Int :=
  let low := pyLowerL line
  if containsSeq "downloaded by".toList low then -999
  else if containsSeq "doi".toList low && containsSeq "http".toList low then 5
  else
    let score : Int := 10
    let score := MONTHS.foldl
      (fun sc m =>
        if containsSeq m.toList low && containsSeq (toString y).toList low then
          max sc 95
        else sc) score
    let score :=
      if (containsSeq "vol.".toList low || containsSeq "volume".toList low ||
          containsSeq "no.".toList low || containsSeq "issue".toList low) &&
         containsSeq (toString y).toList low then
        max score 85
      else score
    let score :=
      if (containsSeq "copyright".toList low || containsSeq "©".toList low) &&
         containsSeq (toString y).toList low then
        max score 80
      else score
    score

/-- The sort key order of `cands.sort(key=lambda t: (t[1], t[0]), reverse=True)`:
`a` sorts no later than `b` in the descending (score, year) order. -/
def yearLe (a b : Nat × Int) : Bool :=
  b.2 < a.2 || (a.2 == b.2 && decide (b.1 ≤ a.1))

/-- Stable insertion step of the descending sort: `x` is placed before
the first element it is `yearLe`-above, so elements with equal keys keep
their original relative order, exactly as Python's stable `sort`. -/
def insertByDesc (x : Nat × Int) : List (Nat × Int) → List (Nat × Int)
  | [] => [x]
  | y :: ys => if yearLe x y then x :: y :: ys else y :: insertByDesc x ys

/-- `cands.sort(key=lambda t: (t[1], t[0]), reverse=True)`: a stable
sort descending by (score, year). -/
def sortYearCands (cands : List (Nat × Int)) : List (Nat × Int) :=
  cands.foldr insertByDesc []

/-- `_pick_best_year_scored` from `parse_pdfs.py` (lines 35-45): sort
descending by (score, year), take the top score, and return the maximum
year among the pairs attaining it. -/
def pick_best_year_scored (cands : List (Nat × Int)) : Option Nat :=
  let sorted := sortYearCands cands
  match sorted with
  | [] => none
  | (y, s) :: _ =>
    let top := (sorted.filter fun p => p.2 == s).map Prod.fst
    match top with
    | [] => some y
    | t :: ts => some (ts.foldl max t)

/-- One line of the candidate loop of `fallback_year_from_pdf_first_pages`
(`parse_pdfs.py` lines 109-116). -/
def fallbackBestStep (cy : Nat) (best : Nat × Int) (lineL : List Char) : Nat × Int :=
  let line := pyStripWs lineL
  if line.isEmpty then best
  else
    (year_candidates cy line).foldl
      (fun b y =>
        let s := score_year_in_line line y
        if s > b.2 ∨ (s = b.2 ∧ y > b.1) then (y, s) else b) best

/-- `fallback_year_from_pdf_first_pages` from `parse_pdfs.py`
(lines 89-118), applied to the text already extracted from the first
pages (PDF reading is an external collaborator). -/
def fallback_year_from_pdf_first_pages (cy : Nat) (text : List Char) : Option Nat :=
  if (pyStripWs text).isEmpty then none
  else
    let best := (pySplitLinesL text).foldl (fallbackBestStep cy) (0, -1000000000)
    if best.2 > 0 then some best.1 else none

/-! Title extraction (`parse_pdfs.py` lines 224-395) and the title
merge step of `parse_pdf` (lines 712-716). -/

/-- Python `l.split(sep, 1)[-1]`: the part after the first occurrence of
`sep`, or the whole string when `sep` does not occur. -/
def pySplitOnceAfter (sep l : List Char) : List Char :=
  match pyFindPos sep l with
  | some i => l.drop (i + sep.length)
  | none => l

/-- `re.search(r"\.\s+in\s+", s, re.IGNORECASE)` matching at the current
position: a dot, at least one whitespace, `in` (case-insensitive), at
least one whitespace. -/
def dotInMatchAt (l : List Char) : Bool :=
  match l with
  | '.' :: rest =>
    decide (1 ≤ (rest.takeWhile pySpace).length) &&
    (match rest.dropWhile pySpace with
     | i0 :: n0 :: rest3 =>
       lowerChar i0 == 'i' && lowerChar n0 == 'n' &&
       (match rest3 with | w2 :: _ => pySpace w2 | [] => false)
     | _ => false)
  | _ => false

/-- `extract_title_from_cite_as` from `parse_pdfs.py` (lines 224-254). -/
def extract_title_from_cite_as : List (List Char) → Option (List Char)
  | [] => none
  | ln :: rest =>
    let low := pyLowerL ln
    if !containsSeq "cite as:".toList low then extract_title_from_cite_as rest
    else
      let s := pyStripWs (pySplitOnceAfter ":".toList ln)
      let s2 :=
        match scanFirstIdx (fun _ l => dotInMatchAt l) none s with
        | some i => pyStripWs (s.take i)
        | none => s
      let s2 :=
        if containsSeq ".:".toList s2 then pyStripWs (pySplitOnceAfter ".:".toList s2)
        else s2
      let s2 := pyStripChars " .;-".toList s2
      if decide (4 ≤ pyWordCount s2) && !looks_like_noise_line s2 then some s2
      else extract_title_from_cite_as rest

/-- `_title_score` from `parse_pdfs.py` (lines 256-292). -/
def title_score (s0 : List Char) : Int :=
  let s := pyNormSpacesL s0
  if s.isEmpty then -1000000000
  else
    let low := pyLowerL s
    if looks_like_noise_line s then -1000000
    else
      let n_words := pyWordCount s
      if n_words < 4 then -1000
      else
        let score : Int := 0
        let score := score + min (s.length : Int) 200
        let score := score + 20 * min (n_words : Int) 20
        let letters := s.filter isAlphaC
        let score :=
          if !letters.isEmpty && letters.map upperChar == letters then score - 200 else score
        let score :=
          if containsSeq "cfd with opensource software".toList low then score - 500 else score
        let score := if containsSeq ":".toList s then score + 30 else score
        let score := if containsSeq "-".toList s then score + 15 else score
        score

/-- The pre-trim loop of `extract_title_from_pdf_lines` (lines 309-327):
keep normalized non-empty lines until an Abstract/Keywords label, with a
hard cap of 35 retained lines; `n` counts the lines already retained. -/
def trimTitleRegion : List (List Char) → Nat → List (List Char)
  | [], _ => []
  | ln0 :: rest, n =>
    let ln := pyNormSpacesL ln0
    if ln.isEmpty then trimTitleRegion rest n
    else if is_section_label_line ln "abstract".toList ||
            is_section_label_line ln "keywords".toList ||
            is_section_label_line ln "key words".toList then []
    else if 35 ≤ n + 1 then [ln]
    else ln :: trimTitleRegion rest (n + 1)

/-- One candidate span of `extract_title_from_pdf_lines` (lines 340-362):
`l` is the suffix of the trimmed lines starting at the span's first
line; a strictly better score replaces the running best. -/
def considerSpan (l : List (List Char)) (span : Nat)
    (best : Option (List Char) × Int) : Option (List Char) × Int :=
  if (l.take span).length ≠ span then best
  else
    let chunk := pyNormSpacesL (joinSpace (l.take span))
    let low := pyLowerL chunk
    if containsSeq "author:".toList low || containsSeq "peer reviewed by:".toList low ||
       containsSeq "licensed under".toList low || containsSeq "cite as:".toList low then best
    else if is_section_label_line chunk "abstract".toList ||
            is_section_label_line chunk "keywords".toList then best
    else
      let n_words := pyWordCount chunk
      if n_words < 4 || 35 < n_words then best
      else if 220 < chunk.length then best
      else
        let sc := title_score chunk
        if sc > best.2 then (some chunk, sc) else best

/-- The outer span loop of `extract_title_from_pdf_lines` (lines 336-362):
spans of 1, 2, 3 consecutive lines at each start position, skipping
positions whose first line is noise. -/
def spanScanAux : List (List Char) → Option (List Char) × Int → Option (List Char) × Int
  | [], best => best
  | ln :: rest, best =>
    let best :=
      if looks_like_noise_line ln then best
      else
        considerSpan (ln :: rest) 3 (considerSpan (ln :: rest) 2 (considerSpan (ln :: rest) 1 best))
    spanScanAux rest best

/-- The span-scoring strategy of `extract_title_from_pdf_lines`
(lines 308-364). -/
def extract_title_spans (lines : List (List Char)) : Option (List Char) :=
  let trimmed := trimTitleRegion (lines.take 80) 0
  if trimmed.isEmpty then none
  else (spanScanAux trimmed (none, -1000000000)).1

/-- `extract_title_from_pdf_lines` from `parse_pdfs.py` (lines 294-364):
the cite-as anchor first (a non-empty result wins), else span scoring. -/
def extract_title_from_pdf_lines (lines : List (List Char)) : Option (List Char) :=
  match extract_title_from_cite_as lines with
  | some t => if t.isEmpty then extract_title_spans lines else some t
  | none => extract_title_spans lines

/-- `_is_good_title` from `parse_pdfs.py` (lines 366-395). -/
def is_good_title (s0 : List Char) : Bool :=
  let s := pyNormSpacesL s0
  if s.isEmpty then false
  else
    let low := pyLowerL s
    if looks_like_noise_line s then false
    else if containsSeq "cfd with opensource software".toList low then false
    else if is_section_label_line s "abstract".toList ||
            is_section_label_line s "keywords".toList ||
            is_section_label_line s "key words".toList then false
    else if 3 ≤ s.count ',' then false
    else if 35 < pyWordCount s || 220 < s.length then false
    else true

/-- The title merge policy of `parse_pdf` (`parse_pdfs.py` lines 712-716):
`if pdf_title and (not _is_good_title(rec["title"])) and _is_good_title(pdf_title)`,
with Python truthiness of the optional `pdf_title` made explicit. -/
def mergeTitleStep (structured : String) (pdfTitle : Option String) : String :=
  match pdfTitle with
  | none => structured
  | some t =>
    if !t.isEmpty && !is_good_title structured.toList && is_good_title t.toList then t
    else structured

/-! Author extraction (`parse_pdfs.py` lines 396-497). -/

/-- Characters kept by `_norm_person`'s `re.sub(r"[^a-z\s\.\-']", " ", s)`. -/
def normPersonKeep (c : Char) : Bool :=
  ('a' ≤ c && c ≤ 'z') || pySpace c || c == '.' || c == '-' || c == '\''

/-- `_norm_person` from `parse_pdfs.py` (lines 396-400). -/
def norm_person (l : List Char) : List Char :=
  let s := pyStripWs (pyLowerL l)
  let s := s.map fun c => if normPersonKeep c then c else ' '
  pyNormSpacesL s

/-- The collection loop of `extract_block_after_label` (lines 423-442):
subsequent lines after the label, stopping on an empty line, a
boilerplate marker, or a short line ending in a colon, capped at 12
collected lines (`n` counts lines already collected). -/
def collectBlock : List (List Char) → Nat → List (List Char)
  | [], _ => []
  | ln0 :: rest, n =>
    let ln := pyStripWs ln0
    let low := pyLowerL ln
    if ln.isEmpty then []
    else if containsSeq "peer reviewed by".toList low ||
            containsSeq "licensed under".toList low ||
            containsSeq "cite as:".toList low ||
            containsSeq "cfd with opensource software".toList low then []
    else if pyEndsWith ":".toList low && low.length < 40 then []
    else if 12 ≤ n + 1 then [pyNormSpacesL ln]
    else pyNormSpacesL ln :: collectBlock rest (n + 1)

/-- The label search of `extract_block_after_label` (lines 410-421):
first line starting with the lowercased label, or exactly equal to the
label with colons stripped; collection starts on the following line. -/
def extractBlockAux (labelLow : List Char) : List (List Char) → List (List Char)
  | [] => []
  | ln :: rest =>
    let t := pyStripWs (pyLowerL ln)
    if seqStartsWith labelLow t || t == pyStripChars [':'] labelLow then collectBlock rest 0
    else extractBlockAux labelLow rest

/-- `extract_block_after_label` from `parse_pdfs.py` (lines 402-442). -/
def extract_block_after_label (lines : List (List Char)) (label : String) : List (List Char) :=
  extractBlockAux (pyLowerL label.toList) lines

/-- The per-line filter of `filter_name_lines` (lines 449-468). -/
def isNameLine (ln : List Char) : Bool :=
  !looks_like_noise_line ln && !ln.any isDigitC &&
  !containsSeq "university".toList (pyLowerL ln) &&
  !containsSeq "@".toList ln &&
  (let toks := pyWordCount ln
   decide (1 ≤ toks) && decide (toks ≤ 5)) &&
  decide (4 ≤ (ln.filter isAlphaC).length)

/-- The de-duplication loop of `filter_name_lines` (lines 470-478):
keep a line when its `_norm_person` key is non-empty and unseen. -/
def dedupNamesAux (seen : List (List Char)) : List (List Char) → List (List Char)
  | [] => []
  | n :: ns =>
    let k := norm_person n
    if !k.isEmpty && !seen.contains k then n :: dedupNamesAux (k :: seen) ns
    else dedupNamesAux seen ns

/-- `filter_name_lines` from `parse_pdfs.py` (lines 444-478). -/
def filter_name_lines (lines : List (List Char)) : List (List Char) :=
  dedupNamesAux [] (lines.filter isNameLine)

/-- `fallback_authors_from_pdf` from `parse_pdfs.py` (lines 480-497),
applied to the already extracted first-page lines. -/
def fallback_authors_from_pdf (lines : List (List Char)) : Option (List (List Char)) :=
  let author_block := extract_block_after_label lines "author:"
  let authors := filter_name_lines author_block
  if authors.isEmpty then none
  else
    let peers :=
      (filter_name_lines (extract_block_after_label lines "peer reviewed by:")).map norm_person
    let cleaned := authors.filter fun a => !peers.contains (norm_person a)
    if cleaned.isEmpty then some authors else some cleaned

/-! The GROBID TEI header (`parse_pdfs.py` lines 589-685).  The XML tree
returned by the external service is modelled by the fields the code
reads: the `findall`/`find` results of each scope, each already passed
through `_text` (which joins and whitespace-normalizes the element's
text).  `headerDates` models `.//tei:teiHeader//tei:date`, which on real
XML is a superset of the imprint dates. -/

structure PersName where
  forenames : List String
  surname : String
deriving DecidableEq

structure TeiDate where
  whenAttr : Option String
  text : String
deriving DecidableEq

structure TeiHeader where
  titleText : String
  authors : List (Option PersName)
  imprintDates : List TeiDate
  headerDates : List TeiDate
  monogrText : Option String
  biblScopeTexts : List String
  meetingText : Option String
  headerText : Option String
deriving DecidableEq

/-- `_norm_name` from `parse_pdfs.py` (lines 594-605); the empty list
models Python's returned `""`. -/
def norm_name (l : List Char) : List Char :=
  let s := pyNormSpacesL l
  if s.isEmpty then []
  else if ["university", "department", "republic", "rights", "permission", "http", "www"].any
      (fun x => containsSeq x.toList (pyLowerL s)) then []
  else if s.any isDigitC then []
  else if 6 < pyWordCount s then []
  else s

/-- One author element (lines 615-627): non-empty forenames joined with
the surname, then `_norm_name`. -/
def teiAuthorName (p : PersName) : List Char :=
  norm_name (pyStripWs (joinSpace
    ((p.forenames.filter (fun f => !f.isEmpty)).map String.toList ++ [p.surname.toList])))

/-- The author collection loop (lines 614-627): authors without a
`persName` or with a rejected name are skipped. -/
def teiAuthorsRaw (h : TeiHeader) : List (List Char) :=
  h.authors.foldr
    (fun a acc =>
      match a with
      | none => acc
      | some p =>
        let name := teiAuthorName p
        if name.isEmpty then acc else name :: acc) []

/-- The de-duplication loop of the TEI author list (lines 629-637):
keyed by `a.lower()` alone. -/
def dedupLowerAux (seen : List (List Char)) : List (List Char) → List (List Char)
  | [] => []
  | a :: rest =>
    let k := pyLowerL a
    if !seen.contains k then a :: dedupLowerAux (k :: seen) rest
    else dedupLowerAux seen rest

def teiAuthors (h : TeiHeader) : List (List Char) :=
  dedupLowerAux [] (teiAuthorsRaw h)

/-- Numeric value of a digit string. -/
def natOfDigits (l : List Char) : Nat :=
  l.foldl (fun n c => 10 * n + digitVal c) 0

/-- The `when`-attribute year of a TEI date (lines 647-649 / 655-657):
a four-digit numeric prefix of the stripped attribute, with no range
check. -/
def whenYear (d : TeiDate) : Option Nat :=
  let w := pyStripWs (d.whenAttr.getD "").toList
  if 4 ≤ w.length && (w.take 4).all isDigitC then some (natOfDigits (w.take 4))
  else none

/-- Scored pairs contributed by one TEI date element: the `when`
attribute at `whenScore`, then the element text's candidates at
`textScore`. -/
def dateScored (cy : Nat) (whenScore textScore : Int) (d : TeiDate) : List (Nat × Int) :=
  (match whenYear d with | some y => [(y, whenScore)] | none => []) ++
  (year_candidates cy d.text.toList).map fun y => (y, textScore)

/-- The scored year pool of `parse_title_authors_year_from_header_tei`
(lines 639-682), scopes (A) to (F) in source order. -/
def teiYearScored (cy : Nat) (h : TeiHeader) : List (Nat × Int) :=
  (h.imprintDates.foldr (fun d acc => dateScored cy 100 95 d ++ acc) []) ++
  (h.headerDates.foldr (fun d acc => dateScored cy 90 85 d ++ acc) []) ++
  (match h.monogrText with
   | some t => (year_candidates cy t.toList).map fun y => ((y, 75) : Nat × Int)
   | none => []) ++
  (h.biblScopeTexts.foldr
    (fun t acc => ((year_candidates cy t.toList).map fun y => ((y, 70) : Nat × Int)) ++ acc) []) ++
  (match h.meetingText with
   | some t => (year_candidates cy t.toList).map fun y => ((y, 40) : Nat × Int)
   | none => []) ++
  (match h.headerText with
   | some t => (year_candidates cy t.toList).map fun y => ((y, 20) : Nat × Int)
   | none => [])

/-- `parse_title_authors_year_from_header_tei` from `parse_pdfs.py`
(lines 607-685). -/
def parse_title_authors_year_from_header_tei (cy : Nat) (h : TeiHeader) :
    String × List String × Option Nat :=
  (h.titleText, (teiAuthors h).map String.mk, pick_best_year_scored (teiYearScored cy h))

/-! The per-document pipeline (`parse_pdfs.py` lines 690-736).  The
external collaborators of `parse_pdf` are an environment: the GROBID
header call (transport plus TEI parse), the two-page text used by the
year fallback, and the first-page lines used by the title and author
fallbacks; each either succeeds or raises, modelled by `Except`. -/

structure DocRecord where
  file_path : String
  file_name : String
  title : String
  authors : List String
  year : Option Nat
  error : Option String
deriving DecidableEq

structure PdfEnv where
  file_path : String
  file_name : String
  headerTei : Except String TeiHeader
  pdfYearText : Except String String
  pdfLines : Except String (List String)

/-- The title and author fallback steps of `parse_pdf` (lines 712-721),
which both read the first-page lines and hence both fail when that read
raises. -/
def parsePdfFallbacks (env : PdfEnv) (r : DocRecord) : DocRecord :=
  match env.pdfLines with
  | .error e => { r with error := some e }
  | .ok lines =>
    let linesL := lines.map String.toList
    let pdfTitle := (extract_title_from_pdf_lines linesL).map String.mk
    let r1 := { r with title := mergeTitleStep r.title pdfTitle }
    match fallback_authors_from_pdf linesL with
    | some pdfAuthors =>
      if pdfAuthors.isEmpty then r1
      else { r1 with authors := pdfAuthors.map String.mk }
    | none => r1

/-- `parse_pdf` from `parse_pdfs.py` (lines 690-726): any collaborator
failure ends the document's processing with the fields set so far kept
and the `error` field recorded. -/
def parse_pdf (cy : Nat) (env : PdfEnv) : DocRecord :=
  let rec0 : DocRecord :=
    { file_path := env.file_path, file_name := env.file_name,
      title := "", authors := [], year := none, error := none }
  match env.headerTei with
  | .error e => { rec0 with error := some e }
  | .ok tei =>
    let tay := parse_title_authors_year_from_header_tei cy tei
    let rec1 := { rec0 with title := tay.1, authors := tay.2.1, year := tay.2.2 }
    match tay.2.2 with
    | none =>
      match env.pdfYearText with
      | .error e => { rec1 with error := some e }
      | .ok txt =>
        let rec2 :=
          match fallback_year_from_pdf_first_pages cy txt.toList with
          | some fy => { rec1 with year := some fy }
          | none => rec1
        parsePdfFallbacks env rec2
    | some _ => parsePdfFallbacks env rec1

/-- `process_root` from `parse_pdfs.py` (lines 728-736): the PDF count
and the per-document records, one per discovered PDF, in order. -/
def process_root (cy : Nat) (envs : List PdfEnv) : Nat × List DocRecord :=
  (envs.length, envs.map (parse_pdf cy))

/-! The citation-key synthesis of `make_bibtex.py`. -/

/-- `_fold_ascii`'s substitution table (`make_bibtex.py` lines 82-97);
unlisted characters map to themselves. -/
def foldAsciiChar (c : Char) : List Char :=
  match c with
  | 'ä' => ['a'] | 'Ä' => ['a'] | 'ö' => ['o'] | 'Ö' => ['o']
  | 'ü' => ['u'] | 'Ü' => ['u']
  | 'ß' => ['s', 's']
  | 'ç' => ['c'] | 'Ç' => ['c']
  | 'ğ' => ['g'] | 'Ğ' => ['g']
  | 'ı' => ['i'] | 'İ' => ['i']
  | 'ş' => ['s'] | 'Ş' => ['s']
  | 'é' => ['e'] | 'è' => ['e'] | 'ê' => ['e'] | 'ë' => ['e']
  | 'á' => ['a'] | 'à' => ['a'] | 'â' => ['a'] | 'ã' => ['a']
  | 'ó' => ['o'] | 'ò' => ['o'] | 'ô' => ['o'] | 'õ' => ['o']
  | 'ú' => ['u'] | 'ù' => ['u'] | 'û' => ['u']
  | 'ñ' => ['n']
  | _ => [c]

/-- `_fold_ascii` from `make_bibtex.py` (lines 82-97). -/
def fold_ascii : List Char → List Char
  | [] => []
  | c :: cs => foldAsciiChar c ++ fold_ascii cs

/-- Characters surviving `_normalize_key_token`'s
`re.sub(r"[^a-z0-9]+", "", s)`. -/
def keyAllowed (c : Char) : Bool :=
  ('a' ≤ c && c ≤ 'z') || isDigitC c

/-- `_normalize_key_token` from `make_bibtex.py` (lines 100-103). -/
def normalize_key_token (l : List Char) : List Char :=
  (pyLowerL (fold_ascii l)).filter keyAllowed

/-- `_STOPWORDS` from `make_bibtex.py` (lines 106-109). -/
def STOPWORDS : List String :=
  ["a", "an", "and", "as", "at", "by", "for", "from", "in", "into", "of", "on",
   "or", "the", "to", "with", "without", "via", "using"]

/-- The word loop of `_first_significant_title_word` (lines 112-117). -/
def firstSigAux : List (List Char) → List Char
  | [] => "work".toList
  | w :: ws =>
    let ww := (pyLowerL (fold_ascii w)).filter isWordC
    if !ww.isEmpty && !STOPWORDS.any (fun s => s.toList == ww) then ww
    else firstSigAux ws

/-- `_first_significant_title_word` from `make_bibtex.py` (lines 112-117). -/
def first_significant_title_word (title : List Char) : List Char :=
  firstSigAux (pySplitWs (pyStripWs title))

/-- `_last_name_from_author` from `make_bibtex.py` (lines 120-129). -/
def last_name_from_author (a0 : List Char) : List Char :=
  let a := pyStripWs a0
  if a.isEmpty then "anon".toList
  else if containsSeq ",".toList a then
    normalize_key_token (a.takeWhile fun c => !(c == ','))
  else
    match (pySplitWs a).getLast? with
    | some t => normalize_key_token t
    | none => normalize_key_token a

/-- The input record fields `make_bibtex_record` reads. -/
structure ParsedRec where
  title : String
  authors : List String
  year : Option Int
  file_name : String
  file_path : String
deriving DecidableEq

/-- Python `used_keys.get(key, d)`. -/
def pyDictGet (m : List (String × Nat)) (k : String) (d : Nat) : Nat :=
  match m.find? (fun p => p.1 == k) with
  | some p => p.2
  | none => d

/-- Python `used_keys[key] = v`. -/
def pyDictSet : List (String × Nat) → String → Nat → List (String × Nat)
  | [], k, v => [(k, v)]
  | p :: ps, k, v => if p.1 == k then (k, v) :: ps else p :: pyDictSet ps k v

/-- `base_key = _last_name_from_author(first_author) or "anon"`
(`make_bibtex.py` lines 213-214). -/
def bibtexSurnameToken (rec : ParsedRec) : List Char :=
  let first_author := match rec.authors with | a :: _ => a | [] => ""
  let base_key0 := last_name_from_author first_author.toList
  if base_key0.isEmpty then "anon".toList else base_key0

/-- `y = str(year) if isinstance(year, int) else "nodate"`
(`make_bibtex.py` line 215). -/
def bibtexYearToken (rec : ParsedRec) : List Char :=
  match rec.year with
  | some n => (toString n).toList
  | none => "nodate".toList

/-- `key = _normalize_key_token(base_key + y + w)` (`make_bibtex.py`
lines 216-218). -/
def bibtexKeyCore (rec : ParsedRec) : List Char :=
  normalize_key_token
    (bibtexSurnameToken rec ++ bibtexYearToken rec ++
      first_significant_title_word (pyStripWs rec.title.toList))

/-- The pre-collision citation key, with the `"ref"` fallback of
`make_bibtex.py` lines 219-220. -/
def bibtexBaseKey (rec : ParsedRec) : String :=
  String.mk
    (if (bibtexKeyCore rec).isEmpty then "ref".toList ++ bibtexYearToken rec
     else bibtexKeyCore rec)

/-- The citation-key portion of `make_bibtex_record` (`make_bibtex.py`
lines 204-226): the base key, then numeric suffixing against the shared
`used_keys` mapping (lines 222-226). -/
def makeBibtexKey (rec : ParsedRec) (used_keys : List (String × Nat)) :
    String × List (String × Nat) :=
  let keyStr := bibtexBaseKey rec
  let n := pyDictGet used_keys keyStr 0
  let used := pyDictSet used_keys keyStr (n + 1)
  if 0 < n then (keyStr ++ toString (n + 1), used) else (keyStr, used)

/-- The record loop of `make_bibtex.py`'s `process_root`
(lines 272-277), restricted to the emitted keys. -/
def processRootKeys (recs : List ParsedRec) (used : List (String × Nat)) : List String :=
  match recs with
  | [] => []
  | r :: rs =>
    let ku := makeBibtexKey r used
    ku.1 :: processRootKeys rs ku.2

/-! Auxiliary definitions used by the theorems: the candidate pool the
fallback-year loop ranges over, re-expressed as a list; the loop's
update function; the lexicographic dominance order it computes; a word
counter for proofs; and spec-side normalizers. -/

/-- The (year, score) pairs one line contributes to the fallback pool
(the body of the loop in `fallback_year_from_pdf_first_pages`). -/
def candsOfLine (cy : Nat) (lineL : List Char) : List (Nat × Int) :=
  let line := pyStripWs lineL
  if line.isEmpty then []
  else (year_candidates cy line).map fun y => (y, score_year_in_line line y)

/-- The whole candidate pool of the fallback-year scan. -/
def candsOfLines (cy : Nat) : List (List Char) → List (Nat × Int)
  | [] => []
  | l :: ls => candsOfLine cy l ++ candsOfLines cy ls

/-- The best-candidate update of the fallback-year loop:
`if s > best[1] or (s == best[1] and y > best[0])`. -/
def updPair (b p : Nat × Int) : Nat × Int :=
  if p.2 > b.2 ∨ (p.2 = b.2 ∧ p.1 > b.1) then p else b

/-- `r` dominates `q` in the (score, year) lexicographic order. -/
def lexGe (r q : Nat × Int) : Prop :=
  q.2 < r.2 ∨ (q.2 = r.2 ∧ q.1 ≤ r.1)

/-- State-machine word counter: `b` records being inside a word.
`wcAux false` agrees with `len(s.split())`. -/
def wcAux : Bool → List Char → Nat
  | _, [] => 0
  | b, c :: cs =>
    if pySpace c then wcAux false cs
    else (if b then 0 else 1) + wcAux true cs

/-- The spec's author normalizer, following its words ("lowercased,
punctuation-stripped"): lowercase, then drop every character that is
not a letter, digit or blank.  Used to compare the spec's claimed
de-duplication key with the code's (`a.lower()` resp. `_norm_person`). -/
def specPersonKey (l : List Char) : List Char :=
  (pyLowerL l).filter fun c => isAlphaC c || isDigitC c || c == ' '

/-- The key emitted for the record holding the `n`-th occurrence
(0-based) of base key `b` in a batch: `b` first, then `b2`, `b3`, ... -/
def emittedKey (b : String) (n : Nat) : String :=
  if n = 0 then b else b ++ toString (n + 1)

/-! Lemmas about `max` folds (Python's `max(list)`). -/

theorem foldlMax_cases (ts : List Nat) : ∀ t : Nat, ts.foldl max t = t ∨ ts.foldl max t ∈ ts := by
  induction ts with
  | nil => intro t; left; rfl
  | cons x xs ih =>
    intro t
    rcases ih (max t x) with h | h
    · rw [List.foldl_cons, h]
      rcases Nat.le_total t x with hle | hle
      · right; rw [Nat.max_eq_right hle]; exact List.mem_cons_self _ _
      · left; exact Nat.max_eq_left hle
    · right
      rw [List.foldl_cons]
      exact List.mem_cons_of_mem _ h

theorem le_foldlMax_init (ts : List Nat) : ∀ t : Nat, t ≤ ts.foldl max t := by
  induction ts with
  | nil => intro t; exact Nat.le_refl t
  | cons x xs ih =>
    intro t
    rw [List.foldl_cons]
    exact Nat.le_trans (Nat.le_max_left t x) (ih (max t x))

theorem le_foldlMax_mem (ts : List Nat) : ∀ (t x : Nat), x ∈ ts → x ≤ ts.foldl max t := by
  induction ts with
  | nil => intro t x hx; cases hx
  | cons a as ih =>
    intro t x hx
    rw [List.foldl_cons]
    rcases List.mem_cons.mp hx with rfl | hx
    · exact Nat.le_trans (Nat.le_max_right t x) (le_foldlMax_init as _)
    · exact ih _ _ hx

/-! Lemmas about the descending (score, year) sort. -/

theorem yearLe_iff (a b : Nat × Int) :
    yearLe a b = true ↔ b.2 < a.2 ∨ (a.2 = b.2 ∧ b.1 ≤ a.1) := by
  simp [yearLe, Bool.or_eq_true, decide_eq_true_eq, beq_iff_eq, Bool.and_eq_true]

theorem yearLe_total (a b : Nat × Int) : yearLe a b = true ∨ yearLe b a = true := by
  rw [yearLe_iff, yearLe_iff]
  omega

theorem yearLe_trans {a b c : Nat × Int}
    (h1 : yearLe a b = true) (h2 : yearLe b c = true) : yearLe a c = true := by
  rw [yearLe_iff] at h1 h2 ⊢
  omega

theorem mem_insertByDesc {a x : Nat × Int} : ∀ {l : List (Nat × Int)},
    a ∈ insertByDesc x l ↔ a = x ∨ a ∈ l := by
  intro l
  induction l with
  | nil => simp [insertByDesc]
  | cons y ys ih =>
    by_cases h : yearLe x y = true
    · simp [insertByDesc, h, List.mem_cons]
    · simp only [insertByDesc, h, if_neg, Bool.not_eq_true] at *
      simp only [List.mem_cons, ih]
      tauto

theorem pairwise_insertByDesc (x : Nat × Int) :
    ∀ {l : List (Nat × Int)}, l.Pairwise (fun a b => yearLe a b = true) →
      (insertByDesc x l).Pairwise (fun a b => yearLe a b = true) := by
  intro l
  induction l with
  | nil => intro _; simp [insertByDesc]
  | cons y ys ih =>
    intro hp
    rcases List.pairwise_cons.mp hp with ⟨hy, hys⟩
    by_cases h : yearLe x y = true
    · rw [insertByDesc, if_pos h]
      refine List.pairwise_cons.mpr ⟨?_, hp⟩
      intro b hb
      rcases List.mem_cons.mp hb with rfl | hb
      · exact h
      · exact yearLe_trans h (hy b hb)
    · rw [insertByDesc, if_neg h]
      refine List.pairwise_cons.mpr ⟨?_, ih hys⟩
      intro b hb
      rcases mem_insertByDesc.mp hb with rfl | hb
      · rcases yearLe_total b y with h' | h'
        · exact absurd h' h
        · exact h'
      · exact hy b hb

theorem mem_sortYearCands {a : Nat × Int} :
    ∀ {l : List (Nat × Int)}, a ∈ sortYearCands l ↔ a ∈ l := by
  intro l
  induction l with
  | nil => simp [sortYearCands]
  | cons x xs ih =>
    show a ∈ insertByDesc x (sortYearCands xs) ↔ _
    rw [mem_insertByDesc]
    simp [List.mem_cons, ih]

theorem pairwise_sortYearCands (l : List (Nat × Int)) :
    (sortYearCands l).Pairwise (fun a b => yearLe a b = true) := by
  induction l with
  | nil => simp [sortYearCands]
  | cons x xs ih => exact pairwise_insertByDesc x ih

/-- The selection property of `_pick_best_year_scored`: on a non-empty
pool it returns the maximum year among the pairs attaining the pool's
maximum score. -/
theorem pick_best_spec (cands : List (Nat × Int)) (hne : cands ≠ []) :
    ∃ y s, pick_best_year_scored cands = some y ∧ (y, s) ∈ cands ∧
      (∀ p ∈ cands, p.2 ≤ s) ∧ (∀ p ∈ cands, p.2 = s → p.1 ≤ y) := by
  obtain ⟨a, cands', rfl⟩ := List.exists_cons_of_ne_nil hne
  have hmem0 : a ∈ sortYearCands (a :: cands') := mem_sortYearCands.mpr (List.mem_cons_self _ _)
  rcases hsort : sortYearCands (a :: cands') with _ | ⟨⟨y0, s0⟩, rest⟩
  · rw [hsort] at hmem0; cases hmem0
  · have hpw := pairwise_sortYearCands (a :: cands')
    rw [hsort] at hpw
    rcases List.pairwise_cons.mp hpw with ⟨hhead, _⟩
    -- the head score dominates every score in the pool
    have hscore : ∀ p ∈ a :: cands', p.2 ≤ s0 := by
      intro p hp
      have hps : p ∈ sortYearCands (a :: cands') := mem_sortYearCands.mpr hp
      rw [hsort] at hps
      rcases List.mem_cons.mp hps with rfl | hps
      · exact Int.le_refl _
      · have := (yearLe_iff _ _).mp (hhead p hps)
        omega
    -- unfold the selection through the sorted list
    have hfilter :
        ((y0, s0) :: rest).filter (fun p => p.2 == s0) =
          (y0, s0) :: rest.filter (fun p => p.2 == s0) := by
      simp [List.filter_cons]
    have hpick :
        pick_best_year_scored (a :: cands') =
          some (((rest.filter (fun p => p.2 == s0)).map Prod.fst).foldl max y0) := by
      simp only [pick_best_year_scored, hsort, hfilter, List.map_cons]
    set tops := (rest.filter (fun p => p.2 == s0)).map Prod.fst with htops
    refine ⟨tops.foldl max y0, s0, hpick, ?_, hscore, ?_⟩
    · -- the selected year is attained at the maximum score
      rcases foldlMax_cases tops y0 with hm | hm
      · rw [hm]
        exact mem_sortYearCands.mp (hsort ▸ List.mem_cons_self _ _)
      · rcases List.mem_map.mp hm with ⟨p, hp, hp1⟩
        rcases List.mem_filter.mp hp with ⟨hpr, hps⟩
        have hps' : p.2 = s0 := by simpa using hps
        have : p ∈ sortYearCands (a :: cands') := by rw [hsort]; exact List.mem_cons_of_mem _ hpr
        have hpc : p ∈ a :: cands' := mem_sortYearCands.mp this
        have : p = (tops.foldl max y0, s0) := by
          rw [← hp1, ← hps']
        rw [← this]
        exact hpc
    · -- it is the maximum year among the pairs attaining that score
      intro p hp hps
      have hpsorted : p ∈ sortYearCands (a :: cands') := mem_sortYearCands.mpr hp
      rw [hsort] at hpsorted
      rcases List.mem_cons.mp hpsorted with rfl | hpr
      · exact le_foldlMax_init tops y0
      · have hp1 : p.1 ∈ tops := by
          rw [htops]
          exact List.mem_map.mpr ⟨p, List.mem_filter.mpr ⟨hpr, by simpa using hps⟩, rfl⟩
        exact le_foldlMax_mem tops y0 p.1 hp1

/-! Lemmas about the fallback-year scan. -/

theorem lexGe_refl (r : Nat × Int) : lexGe r r := by
  unfold lexGe; omega

theorem lexGe_trans {a b c : Nat × Int} (h1 : lexGe a b) (h2 : lexGe b c) : lexGe a c := by
  unfold lexGe at *; omega

theorem updPair_cases (b p : Nat × Int) : updPair b p = p ∨ updPair b p = b := by
  unfold updPair; split
  · exact Or.inl rfl
  · exact Or.inr rfl

theorem lexGe_updPair_right (b p : Nat × Int) : lexGe (updPair b p) p := by
  unfold updPair lexGe; split <;> omega

theorem lexGe_updPair_left (b p : Nat × Int) : lexGe (updPair b p) b := by
  unfold updPair lexGe; split <;> omega

theorem foldl_updPair_spec :
    ∀ (pool : List (Nat × Int)) (b : Nat × Int),
      (pool.foldl updPair b = b ∨ pool.foldl updPair b ∈ pool) ∧
        (∀ p ∈ pool, lexGe (pool.foldl updPair b) p) ∧
        lexGe (pool.foldl updPair b) b := by
  intro pool
  induction pool with
  | nil =>
    intro b
    refine ⟨Or.inl rfl, ?_, lexGe_refl b⟩
    intro p hp; cases hp
  | cons p ps ih =>
    intro b
    rw [List.foldl_cons]
    obtain ⟨h1, h2, h3⟩ := ih (updPair b p)
    refine ⟨?_, ?_, lexGe_trans h3 (lexGe_updPair_left b p)⟩
    · rcases h1 with h | h
      · rcases updPair_cases b p with h' | h'
        · rw [h, h']; right; exact List.mem_cons_self _ _
        · rw [h, h']; left; rfl
      · right; exact List.mem_cons_of_mem _ h
    · intro q hq
      rcases List.mem_cons.mp hq with rfl | hq
      · exact lexGe_trans h3 (lexGe_updPair_right b q)
      · exact h2 q hq

theorem fallbackBestStep_eq (cy : Nat) (b : Nat × Int) (lineL : List Char) :
    fallbackBestStep cy b lineL = (candsOfLine cy lineL).foldl updPair b := by
  unfold fallbackBestStep candsOfLine
  by_cases h : (pyStripWs lineL).isEmpty
  · simp [h]
  · simp only [h, Bool.false_eq_true, if_false, List.foldl_map]
    rfl

theorem foldl_fallbackBestStep (cy : Nat) :
    ∀ (lines : List (List Char)) (b : Nat × Int),
      lines.foldl (fallbackBestStep cy) b = (candsOfLines cy lines).foldl updPair b := by
  intro lines
  induction lines with
  | nil => intro b; rfl
  | cons l ls ih =>
    intro b
    rw [List.foldl_cons, ih (fallbackBestStep cy b l), fallbackBestStep_eq, candsOfLines,
      List.foldl_append]

theorem le_maxFoldStep (P : String → Bool) :
    ∀ (ms : List String) (sc : Int),
      sc ≤ ms.foldl (fun sc m => if P m then max sc 95 else sc) sc := by
  intro ms
  induction ms with
  | nil => intro sc; exact Int.le_refl sc
  | cons m ms ih =>
    intro sc
    rw [List.foldl_cons]
    refine Int.le_trans ?_ (ih _)
    split
    · exact Int.le_max_left sc 95
    · exact Int.le_refl sc

theorem maxFoldStep_spec (P : String → Bool) :
    ∀ (ms : List String) (sc : Int),
      ms.foldl (fun sc m => if P m then max sc 95 else sc) sc =
        if ms.any P then max sc 95 else sc := by
  intro ms
  induction ms with
  | nil => intro sc; simp
  | cons m ms ih =>
    intro sc
    rw [List.foldl_cons, List.any_cons]
    by_cases hm : P m = true
    · rw [if_pos hm, ih, hm]
      by_cases hms : ms.any P = true
      · simp [hms, max_assoc]
      · simp [hms]
    · simp only [hm, Bool.false_eq_true, if_false, Bool.false_or]
      exact ih sc

theorem score_lower_bound (line : List Char) (y : Nat) :
    -999 ≤ score_year_in_line line y := by
  have h10 := le_maxFoldStep
    (fun m => containsSeq m.toList (pyLowerL line) &&
      containsSeq (toString y).toList (pyLowerL line)) MONTHS 10
  simp only [score_year_in_line]
  split_ifs
  · omega
  · omega
  all_goals refine le_trans (le_trans (by omega : (-999 : Int) ≤ 10) h10) ?_
  · exact le_trans (le_max_left _ _) (le_max_left _ _)
  · exact le_max_left _ _
  · exact le_max_left _ _
  · exact le_refl _

theorem mem_candsOfLine {cy : Nat} {lineL : List Char} {p : Nat × Int}
    (hp : p ∈ candsOfLine cy lineL) :
    p.1 ∈ year_candidates cy (pyStripWs lineL) ∧
      p.2 = score_year_in_line (pyStripWs lineL) p.1 := by
  unfold candsOfLine at hp
  by_cases h : (pyStripWs lineL).isEmpty
  · simp [h] at hp
  · simp only [h, Bool.false_eq_true, if_false] at hp
    rcases List.mem_map.mp hp with ⟨y, hy, rfl⟩
    exact ⟨hy, rfl⟩

theorem mem_candsOfLines {cy : Nat} {p : Nat × Int} :
    ∀ {lines : List (List Char)}, p ∈ candsOfLines cy lines →
      ∃ ln ∈ lines, p ∈ candsOfLine cy ln := by
  intro lines
  induction lines with
  | nil => intro h; cases h
  | cons l ls ih =>
    intro h
    rcases List.mem_append.mp h with h | h
    · exact ⟨l, List.mem_cons_self _ _, h⟩
    · rcases ih h with ⟨ln, hln, hp⟩
      exact ⟨ln, List.mem_cons_of_mem _ hln, hp⟩

theorem candsOfLines_ne_nil {cy : Nat} :
    ∀ {lines : List (List Char)}, candsOfLines cy lines ≠ [] →
      ∃ ln ∈ lines, candsOfLine cy ln ≠ [] := by
  intro lines
  induction lines with
  | nil => intro h; exact absurd rfl h
  | cons l ls ih =>
    intro h
    by_cases hl : candsOfLine cy l = []
    · have : candsOfLines cy ls ≠ [] := by
        intro he
        exact h (by rw [candsOfLines, hl, he]; rfl)
      rcases ih this with ⟨ln, hln, hne⟩
      exact ⟨ln, List.mem_cons_of_mem _ hln, hne⟩
    · exact ⟨l, List.mem_cons_self _ _, hl⟩

theorem strip_eq_nil_iff {l : List Char} :
    pyStripWs l = [] ↔ ∀ c ∈ l, pySpace c = true := by
  constructor
  · intro h c hc
    unfold pyStripWs at h
    have h1 : (l.dropWhile pySpace).reverse.dropWhile pySpace = [] := by
      have := congrArg List.reverse h
      simpa using this
    have h2 : ∀ x ∈ (l.dropWhile pySpace).reverse, pySpace x = true :=
      List.dropWhile_eq_nil_iff.mp h1
    have h3 : ∀ x ∈ l.dropWhile pySpace, pySpace x = true := by
      intro x hx; exact h2 x (List.mem_reverse.mpr hx)
    have h4 : c ∈ l.takeWhile pySpace ++ l.dropWhile pySpace := by
      rw [List.takeWhile_append_dropWhile]; exact hc
    rcases List.mem_append.mp h4 with h5 | h5
    · exact List.mem_takeWhile_imp h5
    · exact h3 c h5
  · intro h
    unfold pyStripWs
    have h1 : l.dropWhile pySpace = [] := List.dropWhile_eq_nil_iff.mpr h
    rw [h1]
    rfl

theorem chars_of_splitLinesAux :
    ∀ (cur l : List Char) (ln : List Char),
      ln ∈ pySplitLinesAux cur l → ∀ c ∈ ln, c ∈ cur ∨ c ∈ l := by
  intro cur l
  induction cur, l using pySplitLinesAux.induct with
  | case1 cur hemp =>
    intro ln hln c hc
    unfold pySplitLinesAux at hln
    rw [if_pos hemp] at hln
    cases hln
  | case2 cur hemp =>
    intro ln hln c hc
    unfold pySplitLinesAux at hln
    rw [if_neg hemp] at hln
    rcases List.mem_singleton.mp hln with rfl
    exact Or.inl (List.mem_reverse.mp hc)
  | case3 cur c0 hbk ih =>
    intro ln hln c hc
    unfold pySplitLinesAux at hln
    rw [if_pos hbk] at hln
    rcases List.mem_cons.mp hln with rfl | hln
    · exact Or.inl (List.mem_reverse.mp hc)
    · rcases ih ln hln c hc with h | h
      · cases h
      · cases h
  | case4 cur c0 hbk ih =>
    intro ln hln c hc
    unfold pySplitLinesAux at hln
    rw [if_neg hbk] at hln
    rcases ih ln hln c hc with h | h
    · rcases List.mem_cons.mp h with rfl | h
      · exact Or.inr (List.mem_singleton.mpr rfl)
      · exact Or.inl h
    · cases h
  | case5 cur c0 d rest hrn ih =>
    intro ln hln c hc
    unfold pySplitLinesAux at hln
    rw [if_pos hrn] at hln
    rcases List.mem_cons.mp hln with rfl | hln
    · exact Or.inl (List.mem_reverse.mp hc)
    · rcases ih ln hln c hc with h | h
      · cases h
      · exact Or.inr (List.mem_cons_of_mem _ (List.mem_cons_of_mem _ h))
  | case6 cur c0 d rest hrn hbk ih =>
    intro ln hln c hc
    unfold pySplitLinesAux at hln
    rw [if_neg hrn, if_pos hbk] at hln
    rcases List.mem_cons.mp hln with rfl | hln
    · exact Or.inl (List.mem_reverse.mp hc)
    · rcases ih ln hln c hc with h | h
      · cases h
      · exact Or.inr (List.mem_cons_of_mem _ h)
  | case7 cur c0 d rest hrn hbk ih =>
    intro ln hln c hc
    unfold pySplitLinesAux at hln
    rw [if_neg hrn, if_neg hbk] at hln
    rcases ih ln hln c hc with h | h
    · rcases List.mem_cons.mp h with rfl | h
      · exact Or.inr (List.mem_cons_self _ _)
      · exact Or.inl h
    · exact Or.inr (List.mem_cons_of_mem _ h)

theorem fallback_year_none (cy : Nat) (text : List Char)
    (h : ∀ p ∈ candsOfLines cy (pySplitLinesL text), p.2 ≤ 0) :
    fallback_year_from_pdf_first_pages cy text = none := by
  unfold fallback_year_from_pdf_first_pages
  by_cases hs : (pyStripWs text).isEmpty
  · rw [if_pos hs]
  · rw [if_neg hs]
    simp only [foldl_fallbackBestStep]
    obtain ⟨h1, _, _⟩ := foldl_updPair_spec (candsOfLines cy (pySplitLinesL text)) (0, -1000000000)
    split_ifs with hc
    · exfalso
      rcases h1 with hr | hr
      · rw [hr] at hc; omega
      · have := h _ hr; omega
    · rfl

theorem fallback_year_some (cy : Nat) (text : List Char)
    (hpos : ∃ p ∈ candsOfLines cy (pySplitLinesL text), 0 < p.2) :
    ∃ y s, fallback_year_from_pdf_first_pages cy text = some y ∧
      (y, s) ∈ candsOfLines cy (pySplitLinesL text) ∧
      (∀ p ∈ candsOfLines cy (pySplitLinesL text), p.2 ≤ s) ∧
      (∀ p ∈ candsOfLines cy (pySplitLinesL text), p.2 = s → p.1 ≤ y) := by
  obtain ⟨p0, hp0, hp0pos⟩ := hpos
  -- the pool is non-empty, so the text has a non-whitespace character
  have hpoolne : candsOfLines cy (pySplitLinesL text) ≠ [] := by
    intro he; rw [he] at hp0; cases hp0
  have hs : ¬(pyStripWs text).isEmpty = true := by
    intro hse
    have htxt : ∀ c ∈ text, pySpace c = true :=
      strip_eq_nil_iff.mp (List.isEmpty_iff.mp hse)
    rcases candsOfLines_ne_nil hpoolne with ⟨ln, hln, hlnne⟩
    have hlnstrip : ¬(pyStripWs ln).isEmpty = true := by
      intro h'
      apply hlnne
      unfold candsOfLine
      rw [if_pos h']
    have : ∃ c ∈ ln, pySpace c = false := by
      by_contra hall
      push_neg at hall
      apply hlnstrip
      rw [List.isEmpty_iff]
      exact strip_eq_nil_iff.mpr fun c hc => by
        have := hall c hc
        revert this
        cases pySpace c <;> simp
    rcases this with ⟨c, hcln, hcns⟩
    have hctext : c ∈ text := by
      rcases chars_of_splitLinesAux [] text ln hln c hcln with h | h
      · cases h
      · exact h
    rw [htxt c hctext] at hcns
    cases hcns
  unfold fallback_year_from_pdf_first_pages
  rw [if_neg hs]
  simp only [foldl_fallbackBestStep]
  obtain ⟨h1, h2, _⟩ := foldl_updPair_spec (candsOfLines cy (pySplitLinesL text)) (0, -1000000000)
  set r := (candsOfLines cy (pySplitLinesL text)).foldl updPair (0, -1000000000) with hr
  have hrmem : r ∈ candsOfLines cy (pySplitLinesL text) := by
    rcases h1 with h | h
    · exfalso
      have := h2 p0 hp0
      rw [h] at this
      unfold lexGe at this
      omega
    · exact h
  have hrpos : 0 < r.2 := by
    have := h2 p0 hp0
    unfold lexGe at this
    omega
  refine ⟨r.1, r.2, ?_, ?_, ?_, ?_⟩
  · split_ifs with hc
    · rfl
    · omega
  · rw [Prod.mk.eta]; exact hrmem
  · intro p hp
    have := h2 p hp
    unfold lexGe at this
    omega
  · intro p hp hps
    have := h2 p hp
    unfold lexGe at this
    omega

/-- C4: on every non-empty pool, both selection paths pick the maximum
year among the pairs attaining the pool's maximum score, and the
raw-text fallback reports no year when every score is non-positive
(which subsumes the empty pool). -/
theorem year_selection_policy :
    (∀ cands : List (Nat × Int), cands ≠ [] →
      ∃ y s, pick_best_year_scored cands = some y ∧ (y, s) ∈ cands ∧
        (∀ p ∈ cands, p.2 ≤ s) ∧ (∀ p ∈ cands, p.2 = s → p.1 ≤ y)) ∧
    (∀ (cy : Nat) (text : List Char),
      (∃ p ∈ candsOfLines cy (pySplitLinesL text), 0 < p.2) →
        ∃ y s, fallback_year_from_pdf_first_pages cy text = some y ∧
          (y, s) ∈ candsOfLines cy (pySplitLinesL text) ∧
          (∀ p ∈ candsOfLines cy (pySplitLinesL text), p.2 ≤ s) ∧
          (∀ p ∈ candsOfLines cy (pySplitLinesL text), p.2 = s → p.1 ≤ y)) ∧
    (∀ (cy : Nat) (text : List Char),
      (∀ p ∈ candsOfLines cy (pySplitLinesL text), p.2 ≤ 0) →
        fallback_year_from_pdf_first_pages cy text = none) :=
  ⟨pick_best_spec, fallback_year_some, fallback_year_none⟩

/-- Witness for C4 at concrete pools: a tied top score resolved to the
newer year, a copyright line yielding its year, and a line whose only
candidate carries the negative sentinel score yielding no year. -/
theorem year_selection_policy_witness :
    (∃ y s, pick_best_year_scored [((2000 : Nat), (50 : Int)), (1990, 80), (2007, 80)] = some y ∧
      (y, s) ∈ [((2000 : Nat), (50 : Int)), (1990, 80), (2007, 80)] ∧
      (∀ p ∈ [((2000 : Nat), (50 : Int)), (1990, 80), (2007, 80)], p.2 ≤ s) ∧
      (∀ p ∈ [((2000 : Nat), (50 : Int)), (1990, 80), (2007, 80)], p.2 = s → p.1 ≤ y)) ∧
    (∃ y s, fallback_year_from_pdf_first_pages 2025 "© 2021 IEEE".toList = some y ∧
      (y, s) ∈ candsOfLines 2025 (pySplitLinesL "© 2021 IEEE".toList) ∧
      (∀ p ∈ candsOfLines 2025 (pySplitLinesL "© 2021 IEEE".toList), p.2 ≤ s) ∧
      (∀ p ∈ candsOfLines 2025 (pySplitLinesL "© 2021 IEEE".toList), p.2 = s → p.1 ≤ y)) ∧
    fallback_year_from_pdf_first_pages 2025 "Downloaded by user 2020".toList = none :=
  ⟨year_selection_policy.1 _ (by decide),
   year_selection_policy.2.1 2025 _ ⟨(2021, 80), by decide, by decide⟩,
   year_selection_policy.2.2 2025 _ (by decide)⟩

/-- C1 (amended): every year extracted by the text scanner
`_year_candidates` lies in `[1950, cy + 1]`, and hence so does every
year reported by the raw-text fallback; years taken from explicit
`when` attributes bypass this filter. -/
theorem year_candidates_in_range :
    (∀ (cy : Nat) (l : List Char), ∀ y ∈ year_candidates cy l, 1950 ≤ y ∧ y ≤ cy + 1) ∧
    (∀ (cy : Nat) (text : List Char) (y : Nat),
      fallback_year_from_pdf_first_pages cy text = some y → 1950 ≤ y ∧ y ≤ cy + 1) := by
  have hpart1 : ∀ (cy : Nat) (l : List Char), ∀ y ∈ year_candidates cy l,
      1950 ≤ y ∧ y ≤ cy + 1 := by
    intro cy l y hy
    unfold year_candidates at hy
    have := List.of_mem_filter hy
    simp only [Bool.and_eq_true, decide_eq_true_eq] at this
    exact this
  refine ⟨hpart1, ?_⟩
  intro cy text y h
  unfold fallback_year_from_pdf_first_pages at h
  by_cases hs : (pyStripWs text).isEmpty
  · rw [if_pos hs] at h; cases h
  · rw [if_neg hs] at h
    simp only [foldl_fallbackBestStep] at h
    obtain ⟨h1, _, _⟩ :=
      foldl_updPair_spec (candsOfLines cy (pySplitLinesL text)) (0, -1000000000)
    split_ifs at h with hc
    · rcases h1 with hr | hr
      · rw [hr] at hc; omega
      · have hy : y = ((candsOfLines cy (pySplitLinesL text)).foldl updPair (0, -1000000000)).1 :=
          (Option.some.inj h).symm
        rcases mem_candsOfLines hr with ⟨ln, _, hp⟩
        have := (mem_candsOfLine hp).1
        rw [← hy] at this
        exact hpart1 cy (pyStripWs ln) y this

/-- Witness for C1's amended range property at concrete inputs. -/
theorem year_candidates_in_range_witness :
    (1950 ≤ 1999 ∧ 1999 ≤ 2025 + 1) ∧ (1950 ≤ 2021 ∧ 2021 ≤ 2025 + 1) :=
  ⟨year_candidates_in_range.1 2025 "x 1999 y".toList 1999 (by decide),
   year_candidates_in_range.2 2025 "© 2021 IEEE".toList 2021 (by decide)⟩

/-- Counterexample to C1 as stated: a structured header whose imprint
date carries `when="3000"` yields a pipeline record with year 3000,
outside `[1950, currentYear + 1]` (here `cy = 2025`); the explicit
dated-attribute path performs no range check. -/
theorem year_range_counterexample :
    (parse_pdf 2025
      { file_path := "f", file_name := "f",
        headerTei := .ok
          { titleText := "", authors := [],
            imprintDates := [{ whenAttr := some "3000", text := "" }],
            headerDates := [{ whenAttr := some "3000", text := "" }],
            monogrText := none, biblScopeTexts := [],
            meetingText := none, headerText := some "" },
        pdfYearText := .ok "", pdfLines := .ok [] }).year = some 3000 ∧
    ¬(1950 ≤ 3000 ∧ 3000 ≤ 2025 + 1) := by
  constructor
  · have hscored :
        teiYearScored 2025
          { titleText := "", authors := [],
            imprintDates := [{ whenAttr := some "3000", text := "" }],
            headerDates := [{ whenAttr := some "3000", text := "" }],
            monogrText := none, biblScopeTexts := [],
            meetingText := none, headerText := some "" } = [(3000, 100), (3000, 90)] := by
      decide
    have hpick :
        pick_best_year_scored (teiYearScored 2025
          { titleText := "", authors := [],
            imprintDates := [{ whenAttr := some "3000", text := "" }],
            headerDates := [{ whenAttr := some "3000", text := "" }],
            monogrText := none, biblScopeTexts := [],
            meetingText := none, headerText := some "" }) = some 3000 := by
      rw [hscored]
      obtain ⟨y, s, hp, hmem, _, _⟩ :=
        pick_best_spec [((3000 : Nat), (100 : Int)), (3000, 90)] (by decide)
      have hy : y = 3000 := by
        simp only [List.mem_cons, List.not_mem_nil, or_false, Prod.mk.injEq] at hmem
        rcases hmem with ⟨h, _⟩ | ⟨h, _⟩ <;> exact h
      rw [hp, hy]
    simp only [parse_pdf, parse_title_authors_year_from_header_tei, hpick]
    decide
  · decide

/-- C3: the merged title is the fallback title exactly when a fallback
candidate exists, the structured title fails `_is_good_title`, and the
candidate passes it; in every other case (no candidate, good structured
title, or failing candidate) the structured title is kept, even when it
is the empty string. -/
theorem title_merge_policy (st : String) (pt : Option String) :
    (∀ t, pt = some t → is_good_title st.toList = false → is_good_title t.toList = true →
      mergeTitleStep st pt = t) ∧
    (pt = none → mergeTitleStep st pt = st) ∧
    (is_good_title st.toList = true → mergeTitleStep st pt = st) ∧
    (∀ t, pt = some t → is_good_title t.toList = false → mergeTitleStep st pt = st) := by
  refine ⟨?_, ?_, ?_, ?_⟩
  · intro t hpt hst ht
    subst hpt
    have htne : t.isEmpty = false := by
      by_cases h : t.isEmpty = true
      · exfalso
        rw [(String.isEmpty_iff t).mp h] at ht
        exact absurd ht (by decide)
      · exact eq_false_of_ne_true h
    show (if !t.isEmpty && !is_good_title st.toList && is_good_title t.toList
          then t else st) = t
    rw [htne, hst, ht]
    rfl
  · intro h; subst h; rfl
  · intro h
    cases pt with
    | none => rfl
    | some t =>
      show (if !t.isEmpty && !is_good_title st.toList && is_good_title t.toList
            then t else st) = st
      rw [h]
      simp
  · intro t hpt ht
    subst hpt
    show (if !t.isEmpty && !is_good_title st.toList && is_good_title t.toList
          then t else st) = st
    rw [ht]
    simp

/-- Witness for C3: an empty structured title is overridden by a good
fallback candidate; a good structured title is kept; no candidate keeps
the structured title. -/
theorem title_merge_policy_witness :
    mergeTitleStep "" (some "A Study of Turbulent Mixing Layers") =
      "A Study of Turbulent Mixing Layers" ∧
    mergeTitleStep "Old Good Title Words Here" (some "Another Candidate Title Here") =
      "Old Good Title Words Here" ∧
    mergeTitleStep "" none = "" :=
  ⟨(title_merge_policy "" _).1 _ rfl (by decide) (by decide),
   (title_merge_policy _ _).2.2.1 (by decide),
   (title_merge_policy "" none).2.1 rfl⟩

/-- C5: the raw-text line scorer returns the -999 sentinel on
"downloaded by" lines, 5 on lines containing both a DOI and an HTTP
marker, at least 95 (exactly 95) when a month name co-occurs with the
year digits, exactly 10 for a bare candidate with no contextual
markers, 85 for volume/issue co-occurrence without a month, and 80 for
copyright co-occurrence without a month or volume marker; only the
maximum applicable boost over the base 10 applies. -/
theorem line_year_scoring (line : List Char) (y : Nat) :
    (containsSeq "downloaded by".toList (pyLowerL line) = true →
      score_year_in_line line y = -999) ∧
    (containsSeq "downloaded by".toList (pyLowerL line) = false →
      containsSeq "doi".toList (pyLowerL line) = true →
      containsSeq "http".toList (pyLowerL line) = true →
      score_year_in_line line y = 5) ∧
    (containsSeq "downloaded by".toList (pyLowerL line) = false →
      (containsSeq "doi".toList (pyLowerL line) && containsSeq "http".toList (pyLowerL line)) = false →
      (∃ m ∈ MONTHS, containsSeq m.toList (pyLowerL line) = true) →
      containsSeq (toString y).toList (pyLowerL line) = true →
      95 ≤ score_year_in_line line y) ∧
    (containsSeq "downloaded by".toList (pyLowerL line) = false →
      (containsSeq "doi".toList (pyLowerL line) && containsSeq "http".toList (pyLowerL line)) = false →
      (MONTHS.any fun m => containsSeq m.toList (pyLowerL line) &&
        containsSeq (toString y).toList (pyLowerL line)) = false →
      ((containsSeq "vol.".toList (pyLowerL line) || containsSeq "volume".toList (pyLowerL line) ||
        containsSeq "no.".toList (pyLowerL line) || containsSeq "issue".toList (pyLowerL line)) &&
        containsSeq (toString y).toList (pyLowerL line)) = false →
      ((containsSeq "copyright".toList (pyLowerL line) || containsSeq "©".toList (pyLowerL line)) &&
        containsSeq (toString y).toList (pyLowerL line)) = false →
      score_year_in_line line y = 10) ∧
    (containsSeq "downloaded by".toList (pyLowerL line) = false →
      (containsSeq "doi".toList (pyLowerL line) && containsSeq "http".toList (pyLowerL line)) = false →
      (MONTHS.any fun m => containsSeq m.toList (pyLowerL line) &&
        containsSeq (toString y).toList (pyLowerL line)) = false →
      ((containsSeq "vol.".toList (pyLowerL line) || containsSeq "volume".toList (pyLowerL line) ||
        containsSeq "no.".toList (pyLowerL line) || containsSeq "issue".toList (pyLowerL line)) &&
        containsSeq (toString y).toList (pyLowerL line)) = true →
      score_year_in_line line y = 85) ∧
    (containsSeq "downloaded by".toList (pyLowerL line) = false →
      (containsSeq "doi".toList (pyLowerL line) && containsSeq "http".toList (pyLowerL line)) = false →
      (MONTHS.any fun m => containsSeq m.toList (pyLowerL line) &&
        containsSeq (toString y).toList (pyLowerL line)) = false →
      ((containsSeq "vol.".toList (pyLowerL line) || containsSeq "volume".toList (pyLowerL line) ||
        containsSeq "no.".toList (pyLowerL line) || containsSeq "issue".toList (pyLowerL line)) &&
        containsSeq (toString y).toList (pyLowerL line)) = false →
      ((containsSeq "copyright".toList (pyLowerL line) || containsSeq "©".toList (pyLowerL line)) &&
        containsSeq (toString y).toList (pyLowerL line)) = true →
      score_year_in_line line y = 80) := by
  refine ⟨?_, ?_, ?_, ?_, ?_, ?_⟩
  · intro hdl
    simp only [score_year_in_line, maxFoldStep_spec]
    rw [hdl]
    simp
  · intro hdl hdoi hhttp
    have h2 : (containsSeq "doi".toList (pyLowerL line) &&
        containsSeq "http".toList (pyLowerL line)) = true := by
      rw [hdoi, hhttp]; rfl
    simp only [score_year_in_line, maxFoldStep_spec]
    rw [hdl, h2]
    simp
  · intro hdl hdh hex hy
    rcases hex with ⟨m, hm, hmc⟩
    have hany : (MONTHS.any fun m => containsSeq m.toList (pyLowerL line) &&
        containsSeq (toString y).toList (pyLowerL line)) = true :=
      List.any_eq_true.mpr ⟨m, hm, by rw [hmc, hy]; rfl⟩
    simp only [score_year_in_line, maxFoldStep_spec]
    rw [hdl, hdh, hany]
    simp only [Bool.false_eq_true, if_false, if_true]
    split_ifs <;> decide
  · intro hdl hdh hmon hvol hcopy
    simp only [score_year_in_line, maxFoldStep_spec]
    rw [hdl, hdh, hmon, hvol, hcopy]
    simp
  · intro hdl hdh hmon hvol
    simp only [score_year_in_line, maxFoldStep_spec]
    rw [hdl, hdh, hmon, hvol]
    simp
  · intro hdl hdh hmon hvol hcopy
    simp only [score_year_in_line, maxFoldStep_spec]
    rw [hdl, hdh, hmon, hvol, hcopy]
    simp

/-- Witness for C5: each scoring rule exercised on a concrete line. -/
theorem line_year_scoring_witness :
    score_year_in_line "Downloaded by Univ 2020".toList 2020 = -999 ∧
    score_year_in_line "doi:10.1/x http://a 2019".toList 2019 = 5 ∧
    95 ≤ score_year_in_line "November 2023".toList 2023 ∧
    score_year_in_line "some 2023 here".toList 2023 = 10 ∧
    score_year_in_line "Vol. 3, 2023".toList 2023 = 85 ∧
    score_year_in_line "© 2021 IEEE".toList 2021 = 80 :=
  ⟨(line_year_scoring _ 2020).1 (by decide),
   (line_year_scoring _ 2019).2.1 (by decide) (by decide) (by decide),
   (line_year_scoring _ 2023).2.2.1 (by decide) (by decide)
     ⟨"november", by decide, by decide⟩ (by decide),
   (line_year_scoring _ 2023).2.2.2.1 (by decide) (by decide) (by decide) (by decide) (by decide),
   (line_year_scoring _ 2023).2.2.2.2.1 (by decide) (by decide) (by decide) (by decide),
   (line_year_scoring _ 2021).2.2.2.2.2 (by decide) (by decide) (by decide) (by decide) (by decide)⟩

/-! De-duplication lemmas for the two author paths. -/

theorem contains_iff_memL {l : List (List Char)} {x : List Char} :
    l.contains x = true ↔ x ∈ l :=
  List.elem_iff

theorem dedupLowerAux_spec :
    ∀ (xs seen : List (List Char)),
      (∀ a ∈ dedupLowerAux seen xs, pyLowerL a ∉ seen) ∧
      (dedupLowerAux seen xs).Pairwise (fun a b => pyLowerL a ≠ pyLowerL b) ∧
      (dedupLowerAux seen xs).Sublist xs := by
  intro xs
  induction xs with
  | nil =>
    intro seen
    exact ⟨fun a ha => absurd ha (List.not_mem_nil a), List.Pairwise.nil, List.Sublist.refl []⟩
  | cons a xs ih =>
    intro seen
    by_cases hc : seen.contains (pyLowerL a) = true
    · have hres : dedupLowerAux seen (a :: xs) = dedupLowerAux seen xs := by
        simp only [dedupLowerAux]
        rw [hc]
        rfl
      obtain ⟨h1, h2, h3⟩ := ih seen
      exact ⟨by rw [hres]; exact h1, by rw [hres]; exact h2, by rw [hres]; exact h3.cons a⟩
    · have hres : dedupLowerAux seen (a :: xs) =
          a :: dedupLowerAux (pyLowerL a :: seen) xs := by
        simp only [dedupLowerAux]
        rw [eq_false_of_ne_true hc]
        rfl
      obtain ⟨h1, h2, h3⟩ := ih (pyLowerL a :: seen)
      refine ⟨?_, ?_, ?_⟩
      · intro b hb
        rw [hres] at hb
        rcases List.mem_cons.mp hb with rfl | hb
        · intro hmem; exact hc (contains_iff_memL.mpr hmem)
        · intro hmem
          exact h1 b hb (List.mem_cons_of_mem _ hmem)
      · rw [hres]
        refine List.pairwise_cons.mpr ⟨?_, h2⟩
        intro b hb heq
        exact h1 b hb (heq ▸ List.mem_cons_self _ _)
      · rw [hres]
        exact h3.cons₂ a

theorem dedupNamesAux_spec :
    ∀ (xs seen : List (List Char)),
      (∀ a ∈ dedupNamesAux seen xs, norm_person a ∉ seen) ∧
      (dedupNamesAux seen xs).Pairwise (fun a b => norm_person a ≠ norm_person b) ∧
      (dedupNamesAux seen xs).Sublist xs := by
  intro xs
  induction xs with
  | nil =>
    intro seen
    exact ⟨fun a ha => absurd ha (List.not_mem_nil a), List.Pairwise.nil, List.Sublist.refl []⟩
  | cons a xs ih =>
    intro seen
    by_cases hk : (!(norm_person a).isEmpty && !seen.contains (norm_person a)) = true
    · have hres : dedupNamesAux seen (a :: xs) =
          a :: dedupNamesAux (norm_person a :: seen) xs := by
        simp only [dedupNamesAux]
        rw [hk]
        rfl
      have hc : seen.contains (norm_person a) = false := by
        cases h' : seen.contains (norm_person a)
        · rfl
        · rw [h'] at hk; simp at hk
      obtain ⟨h1, h2, h3⟩ := ih (norm_person a :: seen)
      refine ⟨?_, ?_, ?_⟩
      · intro b hb
        rw [hres] at hb
        rcases List.mem_cons.mp hb with rfl | hb
        · intro hmem
          rw [contains_iff_memL.mpr hmem] at hc
          cases hc
        · intro hmem
          exact h1 b hb (List.mem_cons_of_mem _ hmem)
      · rw [hres]
        refine List.pairwise_cons.mpr ⟨?_, h2⟩
        intro b hb heq
        exact h1 b hb (heq ▸ List.mem_cons_self _ _)
      · rw [hres]
        exact h3.cons₂ a
    · have hres : dedupNamesAux seen (a :: xs) = dedupNamesAux seen xs := by
        simp only [dedupNamesAux]
        rw [eq_false_of_ne_true hk]
        rfl
      obtain ⟨h1, h2, h3⟩ := ih seen
      exact ⟨by rw [hres]; exact h1, by rw [hres]; exact h2, by rw [hres]; exact h3.cons a⟩

/-- C6 (amended): if name-filtering of the author block yields nothing
the extractor reports no result; a reported result is non-empty; and
whenever at least one filtered author is not in the peer set, no
returned author's normalized form is in the peer set.  (When every
author is also a peer, the code returns the unfiltered author list.) -/
theorem peer_filter_policy (lines : List (List Char)) :
    (filter_name_lines (extract_block_after_label lines "author:") = [] →
      fallback_authors_from_pdf lines = none) ∧
    (∀ l, fallback_authors_from_pdf lines = some l → l ≠ []) ∧
    (∀ l, fallback_authors_from_pdf lines = some l →
      (∃ a ∈ filter_name_lines (extract_block_after_label lines "author:"),
        norm_person a ∉
          (filter_name_lines (extract_block_after_label lines "peer reviewed by:")).map
            norm_person) →
      ∀ a ∈ l, norm_person a ∉
        (filter_name_lines (extract_block_after_label lines "peer reviewed by:")).map
          norm_person) := by
  refine ⟨?_, ?_, ?_⟩
  · intro h
    simp only [fallback_authors_from_pdf]
    rw [h]
    rfl
  · intro l hl
    simp only [fallback_authors_from_pdf] at hl
    by_cases hemp : (filter_name_lines (extract_block_after_label lines "author:")).isEmpty = true
    · rw [if_pos hemp] at hl; cases hl
    · rw [if_neg hemp] at hl
      split_ifs at hl with hcl
      · have := Option.some.inj hl
        intro hle
        rw [← this] at hle
        exact hemp (by rw [hle]; rfl)
      · have := Option.some.inj hl
        intro hle
        rw [← this] at hle
        exact hcl (by rw [hle]; rfl)
  · intro l hl hex a ha
    simp only [fallback_authors_from_pdf] at hl
    by_cases hemp : (filter_name_lines (extract_block_after_label lines "author:")).isEmpty = true
    · rw [if_pos hemp] at hl; cases hl
    · rw [if_neg hemp] at hl
      rcases hex with ⟨a0, ha0, ha0p⟩
      have ha0cl : a0 ∈ (filter_name_lines (extract_block_after_label lines "author:")).filter
          (fun a => !((filter_name_lines
            (extract_block_after_label lines "peer reviewed by:")).map norm_person).contains
              (norm_person a)) := by
        refine List.mem_filter.mpr ⟨ha0, ?_⟩
        cases hc : ((filter_name_lines
            (extract_block_after_label lines "peer reviewed by:")).map norm_person).contains
              (norm_person a0)
        · rfl
        · exact absurd (contains_iff_memL.mp hc) ha0p
      have hclne : ¬((filter_name_lines (extract_block_after_label lines "author:")).filter
          (fun a => !((filter_name_lines
            (extract_block_after_label lines "peer reviewed by:")).map norm_person).contains
              (norm_person a))).isEmpty = true := by
        intro h
        rw [List.isEmpty_iff] at h
        rw [h] at ha0cl
        cases ha0cl
      rw [if_neg hclne] at hl
      have hla := Option.some.inj hl
      rw [← hla] at ha
      have := (List.mem_filter.mp ha).2
      intro hmem
      rw [contains_iff_memL.mpr hmem] at this
      cases this

/-- Counterexample to C6 as stated: when every filtered author also
appears in the peer block, the unfiltered author list is returned, so a
returned author's normalized form lies in the peer set. -/
theorem peer_filter_counterexample :
    fallback_authors_from_pdf
        (["Author:", "John Smith", "Peer reviewed by:", "John Smith"].map String.toList) =
      some ["John Smith".toList] ∧
    norm_person "John Smith".toList ∈
      (filter_name_lines (extract_block_after_label
        (["Author:", "John Smith", "Peer reviewed by:", "John Smith"].map String.toList)
        "peer reviewed by:")).map norm_person := by
  constructor
  · decide
  · decide

/-- Witness for C6's amended statement at concrete inputs. -/
theorem peer_filter_policy_witness :
    fallback_authors_from_pdf (["No authors here at all"].map String.toList) = none ∧
    (∀ a ∈ ["John Smith".toList], norm_person a ∉
      (filter_name_lines (extract_block_after_label
        (["Author:", "John Smith", "Jane Roe", "Peer reviewed by:", "Jane Roe"].map
          String.toList) "peer reviewed by:")).map norm_person) :=
  ⟨(peer_filter_policy _).1 (by decide),
   (peer_filter_policy
      (["Author:", "John Smith", "Jane Roe", "Peer reviewed by:", "Jane Roe"].map
        String.toList)).2.2 ["John Smith".toList] (by decide)
      ⟨"John Smith".toList, by decide, by decide⟩⟩

/-- C7 (amended): each author path de-duplicates under its own key — the
structured path by the exact lowercased string, the label-anchored
fallback by `_norm_person` — and each output is an order-preserving
subsequence of the corresponding raw extraction (first-extraction
order).  Neither path de-duplicates by the spec's lowercased,
punctuation-stripped key. -/
theorem author_dedup_policy :
    (∀ h : TeiHeader,
      (teiAuthors h).Pairwise (fun a b => pyLowerL a ≠ pyLowerL b) ∧
      (teiAuthors h).Sublist (teiAuthorsRaw h)) ∧
    (∀ (lines l : List (List Char)),
      fallback_authors_from_pdf lines = some l →
        l.Pairwise (fun a b => norm_person a ≠ norm_person b) ∧
        l.Sublist (extract_block_after_label lines "author:")) := by
  constructor
  · intro h
    obtain ⟨_, h2, h3⟩ := dedupLowerAux_spec (teiAuthorsRaw h) []
    exact ⟨h2, h3⟩
  · intro lines l hl
    have hfl : (filter_name_lines (extract_block_after_label lines "author:")).Pairwise
        (fun a b => norm_person a ≠ norm_person b) ∧
        (filter_name_lines (extract_block_after_label lines "author:")).Sublist
          (extract_block_after_label lines "author:") := by
      obtain ⟨_, h2, h3⟩ :=
        dedupNamesAux_spec ((extract_block_after_label lines "author:").filter isNameLine) []
      exact ⟨h2, h3.trans (List.filter_sublist _)⟩
    obtain ⟨hp, hs⟩ := hfl
    simp only [fallback_authors_from_pdf] at hl
    by_cases hemp : (filter_name_lines (extract_block_after_label lines "author:")).isEmpty = true
    · rw [if_pos hemp] at hl; cases hl
    · rw [if_neg hemp] at hl
      split_ifs at hl with hcl
      · have hla := Option.some.inj hl
        rw [← hla]
        exact ⟨hp, hs⟩
      · have hla := Option.some.inj hl
        rw [← hla]
        exact ⟨hp.sublist (List.filter_sublist _), (List.filter_sublist _).trans hs⟩

/-- Counterexample to C7 as stated: two structured authors differing
only in punctuation are both kept — their lowercased forms differ, so
the structured path's `a.lower()` de-duplication does not merge them —
yet they normalize to the same lowercased, punctuation-stripped key
(and even to the same `_norm_person` key). -/
theorem author_dedup_counterexample :
    (parse_title_authors_year_from_header_tei 2025
      { titleText := "", authors :=
          [some { forenames := ["J,"], surname := "Smith" },
           some { forenames := ["J;"], surname := "Smith" }],
        imprintDates := [], headerDates := [], monogrText := none,
        biblScopeTexts := [], meetingText := none, headerText := none }).2.1 =
      ["J, Smith", "J; Smith"] ∧
    specPersonKey "J, Smith".toList = specPersonKey "J; Smith".toList ∧
    norm_person "J, Smith".toList = norm_person "J; Smith".toList ∧
    ("J, Smith" : String) ≠ "J; Smith" := by
  refine ⟨by decide, by decide, by decide, by decide⟩

/-- Witness for C7's amended statement at concrete inputs. -/
theorem author_dedup_policy_witness :
    ((teiAuthors
      { titleText := "", authors :=
          [some { forenames := ["Jane"], surname := "Roe" },
           some { forenames := ["JANE"], surname := "ROE" },
           some { forenames := ["John"], surname := "Smith" }],
        imprintDates := [], headerDates := [], monogrText := none,
        biblScopeTexts := [], meetingText := none, headerText := none }).Pairwise
        (fun a b => pyLowerL a ≠ pyLowerL b)) ∧
    (["John Smith".toList].Pairwise (fun a b => norm_person a ≠ norm_person b) ∧
      ["John Smith".toList].Sublist
        (extract_block_after_label
          (["Author:", "John Smith", "Jane Roe", "Peer reviewed by:", "Jane Roe"].map
            String.toList) "author:")) :=
  ⟨(author_dedup_policy.1 _).1,
   author_dedup_policy.2
     (["Author:", "John Smith", "Jane Roe", "Peer reviewed by:", "Jane Roe"].map String.toList)
     ["John Smith".toList] (by decide)⟩

/-! Lemmas about the citation-key synthesis. -/

theorem pyDictGet_set_self :
    ∀ (m : List (String × Nat)) (k : String) (v d : Nat),
      pyDictGet (pyDictSet m k v) k d = v := by
  intro m
  induction m with
  | nil =>
    intro k v d
    simp [pyDictSet, pyDictGet, List.find?]
  | cons p ps ih =>
    intro k v d
    by_cases h : p.1 == k
    · simp only [pyDictSet, h, if_true]
      simp [pyDictGet, List.find?]
    · simp only [pyDictSet, h, Bool.false_eq_true, if_false]
      simp only [pyDictGet, List.find?, h]
      exact ih k v d

theorem pyDictGet_set_other :
    ∀ (m : List (String × Nat)) (k k' : String) (v d : Nat), k' ≠ k →
      pyDictGet (pyDictSet m k v) k' d = pyDictGet m k' d := by
  intro m
  induction m with
  | nil =>
    intro k k' v d hne
    have : (k == k') = false := by
      cases h : k == k'
      · rfl
      · exact absurd (beq_iff_eq.mp h).symm hne
    simp [pyDictSet, pyDictGet, List.find?, this]
  | cons p ps ih =>
    intro k k' v d hne
    by_cases h : p.1 == k
    · have hkk' : (k == k') = false := by
        cases h' : k == k'
        · rfl
        · exact absurd (beq_iff_eq.mp h').symm hne
      have hp1k' : (p.1 == k') = false := by
        cases h' : p.1 == k'
        · rfl
        · exact absurd ((beq_iff_eq.mp h').symm.trans (beq_iff_eq.mp h)) hne
      simp only [pyDictSet, h, if_true]
      simp [pyDictGet, List.find?, hkk', hp1k']
    · simp only [pyDictSet, h, Bool.false_eq_true, if_false]
      by_cases h' : p.1 == k'
      · simp [pyDictGet, List.find?, h']
      · simp only [pyDictGet, List.find?, h', Bool.false_eq_true]
        exact ih k k' v d hne

theorem makeBibtexKey_eq (rec : ParsedRec) (used : List (String × Nat)) :
    makeBibtexKey rec used =
      (emittedKey (bibtexBaseKey rec) (pyDictGet used (bibtexBaseKey rec) 0),
        pyDictSet used (bibtexBaseKey rec) (pyDictGet used (bibtexBaseKey rec) 0 + 1)) := by
  simp only [makeBibtexKey, emittedKey]
  by_cases h : pyDictGet used (bibtexBaseKey rec) 0 = 0
  · rw [h]
    simp
  · rw [if_pos (Nat.pos_of_ne_zero h), if_neg h]

theorem processRootKeys_length :
    ∀ (recs : List ParsedRec) (used : List (String × Nat)),
      (processRootKeys recs used).length = recs.length := by
  intro recs
  induction recs with
  | nil => intro used; rfl
  | cons r rs ih =>
    intro used
    show ((makeBibtexKey r used).1 :: processRootKeys rs (makeBibtexKey r used).2).length = _
    rw [List.length_cons, ih]
    rfl

theorem processRootKeys_spec :
    ∀ (recs : List ParsedRec) (used : List (String × Nat)) (i : Nat) (r : ParsedRec),
      recs[i]? = some r →
      (processRootKeys recs used)[i]? =
        some (emittedKey (bibtexBaseKey r)
          (pyDictGet used (bibtexBaseKey r) 0 +
            ((recs.take i).filter fun q => bibtexBaseKey q == bibtexBaseKey r).length)) := by
  intro recs
  induction recs with
  | nil => intro used i r h; simp at h
  | cons q rs ih =>
    intro used i r h
    cases i with
    | zero =>
      have hq : q = r := by simpa using h
      subst hq
      show ((makeBibtexKey q used).1 :: processRootKeys rs (makeBibtexKey q used).2)[0]? = _
      rw [makeBibtexKey_eq]
      simp
    | succ i =>
      have h' : rs[i]? = some r := by simpa using h
      show ((makeBibtexKey q used).1 :: processRootKeys rs (makeBibtexKey q used).2)[i + 1]? = _
      rw [List.getElem?_cons_succ, ih (makeBibtexKey q used).2 i r h', makeBibtexKey_eq]
      rw [List.take_succ_cons, List.filter_cons]
      by_cases hb : bibtexBaseKey q = bibtexBaseKey r
      · rw [hb, pyDictGet_set_self]
        have hrr : (bibtexBaseKey r == bibtexBaseKey r) = true := beq_iff_eq.mpr rfl
        rw [if_pos hrr, List.length_cons]
        congr 2
        omega
      · have hbeq : (bibtexBaseKey q == bibtexBaseKey r) = false := by
          cases h'' : bibtexBaseKey q == bibtexBaseKey r
          · rfl
          · exact absurd (beq_iff_eq.mp h'') hb
        rw [pyDictGet_set_other _ _ _ _ _ (fun he => hb he.symm), hbeq]
        simp

/-- C2 (amended): keys are emitted one per record, and the record
holding the `n`-th occurrence (0-based, first-seen order) of a base key
`b` receives `b` for `n = 0` and `b` suffixed with `n + 1` afterwards —
so same-base records get `b`, `b2`, ..., `bN` in order.  Keys are *not*
pairwise distinct across a batch: a suffixed key can coincide with a
later record's distinct base key. -/
theorem key_suffixing_first_seen :
    (∀ (recs : List ParsedRec) (used : List (String × Nat)),
      (processRootKeys recs used).length = recs.length) ∧
    (∀ (recs : List ParsedRec) (i : Nat) (r : ParsedRec),
      recs[i]? = some r →
      (processRootKeys recs [])[i]? =
        some (emittedKey (bibtexBaseKey r)
          (((recs.take i).filter fun q => bibtexBaseKey q == bibtexBaseKey r).length))) := by
  refine ⟨processRootKeys_length, ?_⟩
  intro recs i r h
  have := processRootKeys_spec recs [] i r h
  simpa [pyDictGet, List.find?] using this

/-- Counterexample to C2's pairwise-distinctness: two records with base
key `anonnodatework` followed by one whose own base key is
`anonnodatework2`; the second and third emitted keys coincide. -/
theorem key_collision_counterexample :
    processRootKeys
        [{ title := "", authors := [], year := none, file_name := "", file_path := "" },
         { title := "", authors := [], year := none, file_name := "", file_path := "" },
         { title := "work2", authors := [], year := none, file_name := "", file_path := "" }]
        [] = ["anonnodatework", "anonnodatework2", "anonnodatework2"] ∧
    (processRootKeys
        [{ title := "", authors := [], year := none, file_name := "", file_path := "" },
         { title := "", authors := [], year := none, file_name := "", file_path := "" },
         { title := "work2", authors := [], year := none, file_name := "", file_path := "" }]
        [])[1]? =
      (processRootKeys
        [{ title := "", authors := [], year := none, file_name := "", file_path := "" },
         { title := "", authors := [], year := none, file_name := "", file_path := "" },
         { title := "work2", authors := [], year := none, file_name := "", file_path := "" }]
        [])[2]? := by
  constructor
  · decide
  · decide

/-- Witness for C2's amended statement: the third same-base record of a
batch receives the key `anonnodatework3`. -/
theorem key_suffixing_first_seen_witness :
    (processRootKeys
        [{ title := "", authors := [], year := none, file_name := "", file_path := "" },
         { title := "", authors := [], year := none, file_name := "", file_path := "" },
         { title := "", authors := [], year := none, file_name := "", file_path := "" }]
        [])[2]? =
      some (emittedKey
        (bibtexBaseKey { title := "", authors := [], year := none, file_name := "", file_path := "" })
        (([{ title := "", authors := [], year := none, file_name := "", file_path := "" },
           { title := "", authors := [], year := none, file_name := "", file_path := "" },
           { title := "", authors := [], year := none, file_name := "", file_path := "" }].take 2).filter
          (fun q => bibtexBaseKey q ==
            bibtexBaseKey { title := "", authors := [], year := none, file_name := "", file_path := "" })).length) :=
  key_suffixing_first_seen.2 _ 2 _ (by decide)

theorem fold_ascii_append :
    ∀ (a b : List Char), fold_ascii (a ++ b) = fold_ascii a ++ fold_ascii b := by
  intro a b
  induction a with
  | nil => rfl
  | cons c cs ih =>
    show foldAsciiChar c ++ fold_ascii (cs ++ b) = (foldAsciiChar c ++ fold_ascii cs) ++ _
    rw [ih, List.append_assoc]

theorem normalize_key_token_append (a b : List Char) :
    normalize_key_token (a ++ b) = normalize_key_token a ++ normalize_key_token b := by
  unfold normalize_key_token pyLowerL
  rw [fold_ascii_append, List.map_append, List.filter_append]

theorem keyAllowed_of_mem_nkt {l : List Char} {c : Char} (h : c ∈ normalize_key_token l) :
    keyAllowed c = true :=
  List.of_mem_filter h

theorem foldAsciiChar_fixed {c : Char} (h : keyAllowed c = true) : foldAsciiChar c = [c] := by
  unfold foldAsciiChar
  split <;> first | rfl | (revert h; decide)

theorem lowerChar_fixed {c : Char} (h : keyAllowed c = true) : lowerChar c = c := by
  simp only [keyAllowed, isDigitC, Bool.or_eq_true, Bool.and_eq_true, decide_eq_true_eq] at h
  unfold lowerChar
  split
  · rename_i h'
    exfalso
    rcases h with ⟨h1, _⟩ | ⟨h1, h2⟩
    · exact absurd (le_trans h1 h'.2) (by decide)
    · exact absurd (le_trans h'.1 h2) (by decide)
  · rfl

theorem fold_ascii_fixed : ∀ {l : List Char}, (∀ c ∈ l, keyAllowed c = true) →
    fold_ascii l = l := by
  intro l
  induction l with
  | nil => intro _; rfl
  | cons c cs ih =>
    intro h
    show foldAsciiChar c ++ fold_ascii cs = c :: cs
    rw [foldAsciiChar_fixed (h c (List.mem_cons_self _ _)),
      ih fun x hx => h x (List.mem_cons_of_mem _ hx)]
    rfl

theorem map_lowerChar_fixed : ∀ {l : List Char}, (∀ c ∈ l, lowerChar c = c) →
    l.map lowerChar = l := by
  intro l
  induction l with
  | nil => intro _; rfl
  | cons c cs ih =>
    intro h
    rw [List.map_cons, h c (List.mem_cons_self _ _),
      ih fun x hx => h x (List.mem_cons_of_mem _ hx)]

theorem nkt_fixed {l : List Char} (h : ∀ c ∈ l, keyAllowed c = true) :
    normalize_key_token l = l := by
  unfold normalize_key_token pyLowerL
  rw [fold_ascii_fixed h, map_lowerChar_fixed fun c hc => lowerChar_fixed (h c hc)]
  exact List.filter_eq_self.mpr h

theorem last_name_allowed (a0 : List Char) :
    ∀ c ∈ last_name_from_author a0, keyAllowed c = true := by
  intro c hc
  simp only [last_name_from_author] at hc
  split_ifs at hc with h1 h2
  · exact (by decide : ∀ x ∈ ("anon".toList : List Char), keyAllowed x = true) c hc
  · exact keyAllowed_of_mem_nkt hc
  · revert hc
    split
    · intro hc; exact keyAllowed_of_mem_nkt hc
    · intro hc; exact keyAllowed_of_mem_nkt hc

theorem bibtexSurnameToken_allowed (rec : ParsedRec) :
    bibtexSurnameToken rec ≠ [] ∧ ∀ c ∈ bibtexSurnameToken rec, keyAllowed c = true := by
  unfold bibtexSurnameToken
  by_cases h : (last_name_from_author
      (match rec.authors with | a :: _ => a | [] => "").toList).isEmpty = true
  · rw [if_pos h]
    exact ⟨by decide, by decide⟩
  · rw [if_neg h]
    constructor
    · intro he
      rw [List.isEmpty_iff] at h
      exact h he
    · exact fun c hc => last_name_allowed _ c hc

theorem bibtexKeyCore_ne_nil (rec : ParsedRec) : bibtexKeyCore rec ≠ [] := by
  obtain ⟨hne, hall⟩ := bibtexSurnameToken_allowed rec
  unfold bibtexKeyCore
  rw [List.append_assoc, normalize_key_token_append, nkt_fixed hall]
  intro he
  exact hne (List.append_eq_nil.mp he).1

theorem bibtexBaseKey_toList_ne_nil (rec : ParsedRec) : (bibtexBaseKey rec).toList ≠ [] := by
  unfold bibtexBaseKey
  by_cases h : (bibtexKeyCore rec).isEmpty = true
  · rw [if_pos h]
    intro he
    cases he
  · rw [if_neg h]
    exact bibtexKeyCore_ne_nil rec

/-- C10: the record synthesizer always produces a non-empty citation
key: every key component falls back to a non-empty default (`anon` for
the surname, `nodate` for the year, `work` for the title word), the
normalized concatenation is never empty (so the `"ref"` branch never
has to fire), and the empty record yields `anonnodatework`. -/
theorem citation_key_nonempty :
    (∀ (rec : ParsedRec) (used : List (String × Nat)), (makeBibtexKey rec used).1 ≠ "") ∧
    (∀ rec : ParsedRec, bibtexKeyCore rec ≠ []) ∧
    last_name_from_author "".toList = "anon".toList ∧
    first_significant_title_word "".toList = "work".toList ∧
    bibtexYearToken
      { title := "", authors := [], year := none, file_name := "", file_path := "" } =
      "nodate".toList ∧
    bibtexBaseKey
      { title := "", authors := [], year := none, file_name := "", file_path := "" } =
      "anonnodatework" := by
  have hstr : ∀ s : String, s.toList ≠ [] → s ≠ "" := by
    intro s h he
    exact h (by rw [he]; rfl)
  refine ⟨?_, bibtexKeyCore_ne_nil, by decide, by decide, by decide, by decide⟩
  intro rec used
  rw [makeBibtexKey_eq]
  unfold emittedKey
  split_ifs
  · exact hstr _ (bibtexBaseKey_toList_ne_nil rec)
  · refine hstr _ ?_
    show (bibtexBaseKey rec).toList ++ (toString (pyDictGet used (bibtexBaseKey rec) 0 + 1)).toList ≠ []
    intro he
    exact bibtexBaseKey_toList_ne_nil rec (List.append_eq_nil.mp he).1

/-- C9: per-document error isolation.  A failing structured-extraction
call yields a record with the default fields and the error recorded; a
failure during the year fallback keeps the structured title and
authors; a failure while reading the first-page lines keeps title,
authors and year; and the batch always produces one record per
document, each depending only on its own document's environment. -/
theorem per_document_error_isolation :
    (∀ (cy : Nat) (env : PdfEnv) (e : String), env.headerTei = .error e →
      parse_pdf cy env =
        { file_path := env.file_path, file_name := env.file_name,
          title := "", authors := [], year := none, error := some e }) ∧
    (∀ (cy : Nat) (env : PdfEnv) (tei : TeiHeader) (e : String),
      env.headerTei = .ok tei →
      (parse_title_authors_year_from_header_tei cy tei).2.2 = none →
      env.pdfYearText = .error e →
      parse_pdf cy env =
        { file_path := env.file_path, file_name := env.file_name,
          title := (parse_title_authors_year_from_header_tei cy tei).1,
          authors := (parse_title_authors_year_from_header_tei cy tei).2.1,
          year := none, error := some e }) ∧
    (∀ (cy : Nat) (env : PdfEnv) (tei : TeiHeader) (y : Nat) (e : String),
      env.headerTei = .ok tei →
      (parse_title_authors_year_from_header_tei cy tei).2.2 = some y →
      env.pdfLines = .error e →
      parse_pdf cy env =
        { file_path := env.file_path, file_name := env.file_name,
          title := (parse_title_authors_year_from_header_tei cy tei).1,
          authors := (parse_title_authors_year_from_header_tei cy tei).2.1,
          year := some y, error := some e }) ∧
    (∀ (cy : Nat) (envs : List PdfEnv),
      (process_root cy envs).1 = envs.length ∧
      (process_root cy envs).2.length = envs.length ∧
      (∀ (i : Nat) (env : PdfEnv), envs[i]? = some env →
        (process_root cy envs).2[i]? = some (parse_pdf cy env))) := by
  refine ⟨?_, ?_, ?_, ?_⟩
  · intro cy env e h
    simp [parse_pdf, h]
  · intro cy env tei e h1 h2 h3
    simp [parse_pdf, h1, h2, h3]
  · intro cy env tei y e h1 h2 h3
    simp [parse_pdf, parsePdfFallbacks, h1, h2, h3]
  · intro cy envs
    refine ⟨rfl, List.length_map _ _, ?_⟩
    intro i env h
    show (envs.map (parse_pdf cy))[i]? = some (parse_pdf cy env)
    rw [List.getElem?_map, h]
    rfl

/-- Witness for C9 at a concrete failing environment and batch. -/
theorem per_document_error_isolation_witness :
    parse_pdf 2025
      { file_path := "p", file_name := "n", headerTei := .error "boom",
        pdfYearText := .ok "", pdfLines := .ok [] } =
      { file_path := "p", file_name := "n", title := "", authors := [],
        year := none, error := some "boom" } ∧
    (process_root 2025
      [{ file_path := "p", file_name := "n", headerTei := .error "boom",
         pdfYearText := .ok "", pdfLines := .ok [] }]).2[0]? =
      some (parse_pdf 2025
        { file_path := "p", file_name := "n", headerTei := .error "boom",
          pdfYearText := .ok "", pdfLines := .ok [] }) :=
  ⟨per_document_error_isolation.1 2025 _ "boom" rfl,
   (per_document_error_isolation.2.2.2 2025 _).2.2 0 _ rfl⟩

/-! Bridging lemmas: membership, counts, word counts and substring
containment are preserved by `_norm_spaces`' whitespace collapsing and
stripping, for non-whitespace payloads. -/

theorem collapseAux_nonspace (b : Bool) (c : Char) (cs : List Char) (h : pySpace c = false) :
    collapseAux b (c :: cs) = c :: collapseAux false cs := by
  simp [collapseAux, h]

theorem collapseAux_space_inRun (c : Char) (cs : List Char) (h : pySpace c = true) :
    collapseAux true (c :: cs) = collapseAux true cs := by
  simp [collapseAux, h]

theorem collapseAux_space_run2 (c d : Char) (tail : List Char)
    (hc : pySpace c = true) (hd : pySpace d = true) :
    collapseAux false (c :: d :: tail) = ' ' :: collapseAux true (d :: tail) := by
  simp [collapseAux, hc, hd]

theorem collapseAux_space_single (c d : Char) (tail : List Char)
    (hc : pySpace c = true) (hd : pySpace d = false) :
    collapseAux false (c :: d :: tail) = c :: collapseAux false (d :: tail) := by
  simp [collapseAux, hc, hd]

theorem collapseAux_space_last (c : Char) (hc : pySpace c = true) :
    collapseAux false [c] = [c] := by
  simp [collapseAux, hc]

theorem mem_collapseAux {a : Char} (hns : pySpace a = false) :
    ∀ (b : Bool) (l : List Char), a ∈ l → a ∈ collapseAux b l := by
  intro b l
  induction b, l using collapseAux.induct with
  | case1 b => intro h; cases h
  | case2 c cs hc ih =>
    intro h
    rw [collapseAux_space_inRun c cs hc]
    rcases List.mem_cons.mp h with rfl | h
    · rw [hc] at hns; cases hns
    · exact ih h
  | case3 inRun c hc hr d tail hd ih =>
    have hrf : inRun = false := by cases inRun; rfl; exact absurd rfl hr
    subst hrf
    intro h
    rw [collapseAux_space_run2 c d tail hc hd]
    rcases List.mem_cons.mp h with rfl | h
    · rw [hc] at hns; cases hns
    · exact List.mem_cons_of_mem _ (ih h)
  | case4 inRun c hc hr d tail hd ih =>
    have hrf : inRun = false := by cases inRun; rfl; exact absurd rfl hr
    subst hrf
    intro h
    rw [collapseAux_space_single c d tail hc (eq_false_of_ne_true hd)]
    rcases List.mem_cons.mp h with rfl | h
    · rw [hc] at hns; cases hns
    · exact List.mem_cons_of_mem _ (ih h)
  | case5 inRun c hc hr ih =>
    have hrf : inRun = false := by cases inRun; rfl; exact absurd rfl hr
    subst hrf
    intro h
    rw [collapseAux_space_last c hc]
    exact h
  | case6 inRun c cs hc ih =>
    intro h
    rw [collapseAux_nonspace inRun c cs (eq_false_of_ne_true hc)]
    rcases List.mem_cons.mp h with rfl | h
    · exact List.mem_cons_self _ _
    · exact List.mem_cons_of_mem _ (ih h)

theorem mem_dropWhile_of_not {a : Char} {p : Char → Bool} (hp : p a = false) :
    ∀ {l : List Char}, a ∈ l → a ∈ l.dropWhile p := by
  intro l
  induction l with
  | nil => intro h; cases h
  | cons c cs ih =>
    intro h
    by_cases hc : p c = true
    · rw [List.dropWhile_cons_of_pos hc]
      rcases List.mem_cons.mp h with rfl | h
      · rw [hp] at hc; cases hc
      · exact ih h
    · rw [List.dropWhile_cons_of_neg hc]
      exact h

theorem mem_stripWs {a : Char} (hns : pySpace a = false) {l : List Char} (h : a ∈ l) :
    a ∈ pyStripWs l := by
  unfold pyStripWs
  rw [List.mem_reverse]
  exact mem_dropWhile_of_not hns (List.mem_reverse.mpr (mem_dropWhile_of_not hns h))

theorem mem_normSpaces {a : Char} (hns : pySpace a = false) {l : List Char} (h : a ∈ l) :
    a ∈ pyNormSpacesL l :=
  mem_stripWs hns (mem_collapseAux hns false l h)

theorem wcAux_space {b : Bool} (c : Char) (cs : List Char) (h : pySpace c = true) :
    wcAux b (c :: cs) = wcAux false cs := by
  simp [wcAux, h]

theorem wcAux_nonspace {b : Bool} (c : Char) (cs : List Char) (h : pySpace c = false) :
    wcAux b (c :: cs) = (if b then 0 else 1) + wcAux true cs := by
  simp [wcAux, h]

theorem count_collapseAux {a : Char} (hns : pySpace a = false) :
    ∀ (b : Bool) (l : List Char), (collapseAux b l).count a = l.count a := by
  have hne : ∀ c : Char, pySpace c = true → (c == a) = false := by
    intro c hc
    cases h : c == a
    · rfl
    · rw [← beq_iff_eq.mp h, hc] at hns; cases hns
  intro b l
  induction b, l using collapseAux.induct with
  | case1 b => rfl
  | case2 c cs hc ih =>
    rw [collapseAux_space_inRun c cs hc, ih, List.count_cons, hne c hc]
    simp
  | case3 inRun c hc hr d tail hd ih =>
    have hrf : inRun = false := by cases inRun; rfl; exact absurd rfl hr
    subst hrf
    rw [collapseAux_space_run2 c d tail hc hd, List.count_cons, List.count_cons, ih,
      hne c hc, hne ' ' (by decide)]
  | case4 inRun c hc hr d tail hd ih =>
    have hrf : inRun = false := by cases inRun; rfl; exact absurd rfl hr
    subst hrf
    rw [collapseAux_space_single c d tail hc (eq_false_of_ne_true hd),
      List.count_cons, List.count_cons, ih]
  | case5 inRun c hc hr ih =>
    have hrf : inRun = false := by cases inRun; rfl; exact absurd rfl hr
    subst hrf
    rw [collapseAux_space_last c hc]
  | case6 inRun c cs hc ih =>
    rw [collapseAux_nonspace inRun c cs (eq_false_of_ne_true hc),
      List.count_cons, List.count_cons, ih]

theorem count_dropWhile_space {a : Char} (hns : pySpace a = false) (l : List Char) :
    (l.dropWhile pySpace).count a = l.count a := by
  conv_rhs => rw [← List.takeWhile_append_dropWhile pySpace l]
  rw [List.count_append]
  have : (l.takeWhile pySpace).count a = 0 := by
    rw [List.count_eq_zero]
    intro hmem
    rw [List.mem_takeWhile_imp hmem] at hns
    cases hns
  omega

theorem count_stripWs {a : Char} (hns : pySpace a = false) (l : List Char) :
    (pyStripWs l).count a = l.count a := by
  unfold pyStripWs
  rw [List.count_reverse, count_dropWhile_space hns, List.count_reverse,
    count_dropWhile_space hns]

theorem count_normSpaces {a : Char} (hns : pySpace a = false) (l : List Char) :
    (pyNormSpacesL l).count a = l.count a := by
  unfold pyNormSpacesL pyCollapseWs
  rw [count_stripWs hns, count_collapseAux hns]

theorem wc_dropWhile_space : ∀ l : List Char, wcAux false (l.dropWhile pySpace) = wcAux false l := by
  intro l
  induction l with
  | nil => rfl
  | cons c cs ih =>
    cases hc : pySpace c
    · rw [List.dropWhile_cons_of_neg (by rw [hc]; exact Bool.false_ne_true)]
    · rw [List.dropWhile_cons_of_pos hc, ih, wcAux_space c cs hc]

theorem wc_allspace {b : Bool} :
    ∀ {l : List Char}, (∀ c ∈ l, pySpace c = true) → wcAux b l = 0 := by
  intro l
  induction l generalizing b with
  | nil => intro _; rfl
  | cons c cs ih =>
    intro h
    rw [wcAux_space c cs (h c (List.mem_cons_self _ _))]
    exact ih fun x hx => h x (List.mem_cons_of_mem _ hx)

theorem wc_append_spaces {l2 : List Char} (h2 : ∀ c ∈ l2, pySpace c = true) :
    ∀ (l1 : List Char) (b : Bool), wcAux b (l1 ++ l2) = wcAux b l1 := by
  intro l1
  induction l1 with
  | nil =>
    intro b
    rw [List.nil_append]
    show wcAux b l2 = 0
    exact wc_allspace h2
  | cons c cs ih =>
    intro b
    rw [List.cons_append]
    cases hc : pySpace c
    · rw [wcAux_nonspace c (cs ++ l2) hc, wcAux_nonspace c cs hc, ih true]
    · rw [wcAux_space c (cs ++ l2) hc, wcAux_space c cs hc, ih false]

theorem strip_decomp (m : List Char) :
    m = (m.reverse.dropWhile pySpace).reverse ++ (m.reverse.takeWhile pySpace).reverse ∧
      ∀ c ∈ (m.reverse.takeWhile pySpace).reverse, pySpace c = true := by
  constructor
  · conv_lhs => rw [← List.reverse_reverse m, ← List.takeWhile_append_dropWhile pySpace m.reverse]
    rw [List.reverse_append]
  · intro c hc
    exact List.mem_takeWhile_imp (List.mem_reverse.mp hc)

theorem wc_stripWs (l : List Char) : wcAux false (pyStripWs l) = wcAux false l := by
  obtain ⟨hdec, hsp⟩ := strip_decomp (l.dropWhile pySpace)
  have h1 : wcAux false (l.dropWhile pySpace) = wcAux false (pyStripWs l) := by
    conv_lhs => rw [hdec]
    exact wc_append_spaces hsp _ false
  rw [← h1, wc_dropWhile_space]

theorem wc_collapse :
    ∀ l : List Char,
      (∀ w : Bool, wcAux w (collapseAux false l) = wcAux w l) ∧
        wcAux false (collapseAux true l) = wcAux false l := by
  intro l
  induction l with
  | nil => exact ⟨fun w => rfl, rfl⟩
  | cons c cs ih =>
    obtain ⟨ihA, ihB⟩ := ih
    constructor
    · intro w
      cases hc : pySpace c
      · rw [collapseAux_nonspace false c cs hc, wcAux_nonspace c (collapseAux false cs) hc,
          wcAux_nonspace c cs hc, ihA true]
      · cases cs with
        | nil =>
          rw [collapseAux_space_last c hc]
        | cons d tail =>
          cases hd : pySpace d
          · rw [collapseAux_space_single c d tail hc hd,
              wcAux_space c (collapseAux false (d :: tail)) hc,
              wcAux_space c (d :: tail) hc, ihA false]
          · rw [collapseAux_space_run2 c d tail hc hd,
              wcAux_space ' ' (collapseAux true (d :: tail)) (by decide),
              wcAux_space c (d :: tail) hc, ihB]
    · cases hc : pySpace c
      · rw [collapseAux_nonspace true c cs hc, wcAux_nonspace c (collapseAux false cs) hc,
          wcAux_nonspace c cs hc, ihA true]
      · rw [collapseAux_space_inRun c cs hc, wcAux_space c cs hc, ihB]

theorem wordCount_eq_wcAux : ∀ (l cur : List Char),
    (splitWsAux cur l).length = (if cur.isEmpty then 0 else 1) + wcAux (!cur.isEmpty) l := by
  intro l
  induction l with
  | nil =>
    intro cur
    unfold splitWsAux wcAux
    cases hcur : cur.isEmpty <;> simp
  | cons c cs ih =>
    intro cur
    unfold splitWsAux
    cases hc : pySpace c
    · simp only [Bool.false_eq_true, if_false]
      rw [ih (c :: cur), wcAux_nonspace c cs hc]
      cases hcur : cur.isEmpty <;> simp
    · simp only [if_true]
      rw [wcAux_space c cs hc]
      cases hcur : cur.isEmpty
      · simp only [Bool.false_eq_true, if_false]
        rw [List.length_cons, ih []]
        simp only [List.isEmpty_nil, if_true, Bool.not_true]
        omega
      · simp only [if_true]
        rw [ih []]
        simp

theorem pyWordCount_eq (l : List Char) : pyWordCount l = wcAux false l := by
  unfold pyWordCount pySplitWs
  rw [wordCount_eq_wcAux]
  simp

theorem wordCount_normSpaces (l : List Char) :
    pyWordCount (pyNormSpacesL l) = pyWordCount l := by
  rw [pyWordCount_eq, pyWordCount_eq]
  unfold pyNormSpacesL pyCollapseWs
  rw [wc_stripWs]
  exact (wc_collapse l).1 false

theorem containsSeq_nil_of_ne {n : List Char} (hne : n ≠ []) : containsSeq n [] = false := by
  cases n with
  | nil => exact absurd rfl hne
  | cons n0 n' => rfl

theorem containsSeq_cons_of {n l : List Char} (c : Char) (h : containsSeq n l = true) :
    containsSeq n (c :: l) = true := by
  show (seqStartsWith n (c :: l) || containsSeq n l) = true
  rw [h, Bool.or_true]

theorem containsSeq_singleton {c : Char} : ∀ {l : List Char},
    containsSeq [c] l = true ↔ c ∈ l := by
  intro l
  induction l with
  | nil => simp [containsSeq, seqStartsWith]
  | cons x xs ih =>
    show (seqStartsWith [c] (x :: xs) || containsSeq [c] xs) = true ↔ _
    rw [Bool.or_eq_true, ih]
    constructor
    · intro h
      rcases h with h | h
      · have : (c == x) = true := by
          revert h
          unfold seqStartsWith
          cases c == x
          · intro h; cases h
          · intro _; rfl
        exact (beq_iff_eq.mp this) ▸ List.mem_cons_self _ _
      · exact List.mem_cons_of_mem _ h
    · intro h
      rcases List.mem_cons.mp h with rfl | h
      · left
        show (c == c && seqStartsWith [] xs) = true
        rw [beq_self_eq_true]
        rfl
      · right; exact h

theorem sw_nonspace_collapse : ∀ (n cs : List Char), (∀ c ∈ n, pySpace c = false) →
    seqStartsWith n cs = true → seqStartsWith n (collapseAux false cs) = true := by
  intro n
  induction n with
  | nil => intro cs _ _; rfl
  | cons a n' ih =>
    intro cs hns hsw
    cases cs with
    | nil => cases hsw
    | cons b cs' =>
      have hab : (a == b) = true := by
        revert hsw
        show (a == b && seqStartsWith n' cs') = true → _
        cases a == b
        · intro h; cases h
        · intro _; rfl
      have hsw' : seqStartsWith n' cs' = true := by
        revert hsw
        show (a == b && seqStartsWith n' cs') = true → _
        rw [hab, Bool.true_and]
        exact id
      have hbns : pySpace b = false := by
        rw [← beq_iff_eq.mp hab]
        exact hns a (List.mem_cons_self _ _)
      rw [collapseAux_nonspace false b cs' hbns]
      show (a == b && seqStartsWith n' (collapseAux false cs')) = true
      rw [hab, Bool.true_and]
      exact ih cs' (fun x hx => hns x (List.mem_cons_of_mem _ hx)) hsw'

theorem containsSeq_collapse {n : List Char} (hne : n ≠ [])
    (hns : ∀ c ∈ n, pySpace c = false) :
    ∀ (b : Bool) (l : List Char), containsSeq n l = true →
      containsSeq n (collapseAux b l) = true := by
  intro b l
  induction b, l using collapseAux.induct with
  | case1 b =>
    intro h
    rw [containsSeq_nil_of_ne hne] at h
    cases h
  | case2 c cs hc ih =>
    intro h
    rw [collapseAux_space_inRun c cs hc]
    rcases (Bool.or_eq_true _ _) ▸ h with h | h
    · exfalso
      cases n with
      | nil => exact hne rfl
      | cons n0 n'' =>
        have hn0c : (n0 == c) = true := by
          revert h
          show (n0 == c && seqStartsWith n'' cs) = true → _
          cases n0 == c
          · intro h; cases h
          · intro _; rfl
        have h1 := hns n0 (List.mem_cons_self _ _)
        rw [beq_iff_eq.mp hn0c] at h1
        rw [h1] at hc
        cases hc
    · exact ih h
  | case3 inRun c hc hr d tail hd ih =>
    have hrf : inRun = false := by cases inRun; rfl; exact absurd rfl hr
    subst hrf
    intro h
    rw [collapseAux_space_run2 c d tail hc hd]
    rcases (Bool.or_eq_true _ _) ▸ h with h | h
    · exfalso
      cases n with
      | nil => exact hne rfl
      | cons n0 n'' =>
        have hn0c : (n0 == c) = true := by
          revert h
          show (n0 == c && seqStartsWith n'' (d :: tail)) = true → _
          cases n0 == c
          · intro h; cases h
          · intro _; rfl
        have h1 := hns n0 (List.mem_cons_self _ _)
        rw [beq_iff_eq.mp hn0c] at h1
        rw [h1] at hc
        cases hc
    · exact containsSeq_cons_of ' ' (ih h)
  | case4 inRun c hc hr d tail hd ih =>
    have hrf : inRun = false := by cases inRun; rfl; exact absurd rfl hr
    subst hrf
    intro h
    rw [collapseAux_space_single c d tail hc (eq_false_of_ne_true hd)]
    rcases (Bool.or_eq_true _ _) ▸ h with h | h
    · exfalso
      cases n with
      | nil => exact hne rfl
      | cons n0 n'' =>
        have hn0c : (n0 == c) = true := by
          revert h
          show (n0 == c && seqStartsWith n'' (d :: tail)) = true → _
          cases n0 == c
          · intro h; cases h
          · intro _; rfl
        have h1 := hns n0 (List.mem_cons_self _ _)
        rw [beq_iff_eq.mp hn0c] at h1
        rw [h1] at hc
        cases hc
    · exact containsSeq_cons_of c (ih h)
  | case5 inRun c hc hr ih =>
    have hrf : inRun = false := by cases inRun; rfl; exact absurd rfl hr
    subst hrf
    intro h
    rw [collapseAux_space_last c hc]
    exact h
  | case6 inRun c cs hc ih =>
    intro h
    rw [collapseAux_nonspace inRun c cs (eq_false_of_ne_true hc)]
    rcases (Bool.or_eq_true _ _) ▸ h with h | h
    · show (seqStartsWith n (c :: collapseAux false cs) || _) = true
      cases n with
      | nil => rfl
      | cons n0 n'' =>
        have hn0c : (n0 == c) = true := by
          revert h
          show (n0 == c && seqStartsWith n'' cs) = true → _
          cases n0 == c
          · intro h'; cases h'
          · intro _; rfl
        have hsw' : seqStartsWith n'' cs = true := by
          revert h
          show (n0 == c && seqStartsWith n'' cs) = true → _
          rw [hn0c, Bool.true_and]
          exact id
        have : seqStartsWith (n0 :: n'') (c :: collapseAux false cs) = true := by
          show (n0 == c && seqStartsWith n'' (collapseAux false cs)) = true
          rw [hn0c, Bool.true_and]
          exact sw_nonspace_collapse n'' cs
            (fun x hx => hns x (List.mem_cons_of_mem _ hx)) hsw'
        rw [this, Bool.true_or]
    · exact containsSeq_cons_of c (ih h)

theorem sw_split {B : List Char} (hB : ∀ c ∈ B, pySpace c = true) :
    ∀ (n A : List Char), (∀ c ∈ n, pySpace c = false) →
      seqStartsWith n (A ++ B) = true → seqStartsWith n A = true := by
  intro n
  induction n with
  | nil => intro A _ _; rfl
  | cons n0 n' ih =>
    intro A hns hsw
    cases A with
    | nil =>
      exfalso
      rw [List.nil_append] at hsw
      cases B with
      | nil => cases hsw
      | cons b bs =>
        have : (n0 == b) = true := by
          revert hsw
          show (n0 == b && seqStartsWith n' bs) = true → _
          cases n0 == b
          · intro h; cases h
          · intro _; rfl
        have h1 := hns n0 (List.mem_cons_self _ _)
        rw [beq_iff_eq.mp this, hB b (List.mem_cons_self _ _)] at h1
        cases h1
    | cons a A' =>
      rw [List.cons_append] at hsw
      have hn0a : (n0 == a) = true := by
        revert hsw
        show (n0 == a && seqStartsWith n' (A' ++ B)) = true → _
        cases n0 == a
        · intro h; cases h
        · intro _; rfl
      have hsw' : seqStartsWith n' (A' ++ B) = true := by
        revert hsw
        show (n0 == a && seqStartsWith n' (A' ++ B)) = true → _
        rw [hn0a, Bool.true_and]
        exact id
      show (n0 == a && seqStartsWith n' A') = true
      rw [hn0a, Bool.true_and]
      exact ih A' (fun x hx => hns x (List.mem_cons_of_mem _ hx)) hsw'

theorem containsSeq_allspace_false {n : List Char} (hne : n ≠ [])
    (hns : ∀ c ∈ n, pySpace c = false) :
    ∀ {B : List Char}, (∀ c ∈ B, pySpace c = true) → containsSeq n B = false := by
  intro B
  induction B with
  | nil => intro _; exact containsSeq_nil_of_ne hne
  | cons b bs ih =>
    intro hB
    show (seqStartsWith n (b :: bs) || containsSeq n bs) = false
    rw [ih fun x hx => hB x (List.mem_cons_of_mem _ hx), Bool.or_false]
    cases n with
    | nil => exact absurd rfl hne
    | cons n0 n' =>
      show (n0 == b && seqStartsWith n' bs) = false
      have hb : (n0 == b) = false := by
        cases h : n0 == b
        · rfl
        · have h1 := hns n0 (List.mem_cons_self _ _)
          rw [beq_iff_eq.mp h, hB b (List.mem_cons_self _ _)] at h1
          cases h1
      rw [hb, Bool.false_and]

theorem containsSeq_append_spaces {n : List Char} (hne : n ≠ [])
    (hns : ∀ c ∈ n, pySpace c = false) :
    ∀ (A : List Char) {B : List Char}, (∀ c ∈ B, pySpace c = true) →
      containsSeq n (A ++ B) = true → containsSeq n A = true := by
  intro A
  induction A with
  | nil =>
    intro B hB h
    rw [List.nil_append, containsSeq_allspace_false hne hns hB] at h
    cases h
  | cons a A' ih =>
    intro B hB h
    rw [List.cons_append] at h
    rcases (Bool.or_eq_true _ _) ▸ h with h | h
    · show (seqStartsWith n (a :: A') || containsSeq n A') = true
      rw [sw_split hB n (a :: A') hns (by rw [List.cons_append]; exact h), Bool.true_or]
    · exact containsSeq_cons_of a (ih hB h)

theorem containsSeq_nil_needle : ∀ l : List Char, containsSeq [] l = true := by
  intro l
  cases l with
  | nil => rfl
  | cons c cs => rfl

theorem containsSeq_dropWhile_space {n : List Char} (hns : ∀ c ∈ n, pySpace c = false) :
    ∀ {l : List Char}, containsSeq n l = true → containsSeq n (l.dropWhile pySpace) = true := by
  intro l
  induction l with
  | nil => exact fun h => h
  | cons c cs ih =>
    intro h
    cases hc : pySpace c
    · rwa [List.dropWhile_cons_of_neg (by rw [hc]; exact Bool.false_ne_true)]
    · rw [List.dropWhile_cons_of_pos hc]
      cases n with
      | nil => exact containsSeq_nil_needle _
      | cons n0 n' =>
        rcases (Bool.or_eq_true _ _) ▸ h with h | h
        · exfalso
          have hn0c : (n0 == c) = true := by
            revert h
            show (n0 == c && seqStartsWith n' cs) = true → _
            cases n0 == c
            · intro h'; cases h'
            · intro _; rfl
          have h1 := hns n0 (List.mem_cons_self _ _)
          rw [beq_iff_eq.mp hn0c, hc] at h1
          cases h1
        · exact ih h

theorem containsSeq_stripWs {n : List Char} (hne : n ≠ [])
    (hns : ∀ c ∈ n, pySpace c = false) {l : List Char} (h : containsSeq n l = true) :
    containsSeq n (pyStripWs l) = true := by
  obtain ⟨hdec, hsp⟩ := strip_decomp (l.dropWhile pySpace)
  have h1 : containsSeq n (l.dropWhile pySpace) = true := containsSeq_dropWhile_space hns h
  rw [hdec] at h1
  exact containsSeq_append_spaces hne hns _ hsp h1

theorem containsSeq_normSpaces {n : List Char} (hne : n ≠ [])
    (hns : ∀ c ∈ n, pySpace c = false) {l : List Char} (h : containsSeq n l = true) :
    containsSeq n (pyNormSpacesL l) = true :=
  containsSeq_stripWs hne hns (containsSeq_collapse hne hns false l h)

theorem iteT {c : Prop} [Decidable c] {b : Bool} (h : b = true) :
    (if c then true else b) = true := by
  by_cases hc : c
  · rw [if_pos hc]
  · rw [if_neg hc]
    exact h

theorem iteC {c : Prop} [Decidable c] (hc : c) {b : Bool} :
    (if c then true else b) = true :=
  if_pos hc

theorem digit_nonspace {c : Char} (h : isDigitC c = true) : pySpace c = false := by
  cases hc : pySpace c
  · rfl
  · exfalso
    simp only [pySpace, Bool.or_eq_true, beq_iff_eq] at hc
    simp only [isDigitC, Bool.and_eq_true, decide_eq_true_eq] at h
    rcases hc with ((((h1 | h1) | h1) | h1) | h1) | h1 <;>
      (subst h1; exact absurd h.1 (by decide))

set_option maxHeartbeats 4000000 in
theorem claim8_at {s : List Char} (h : '@' ∈ s) : looks_like_noise_line s = true := by
  have hat : containsSeq "@".toList (pyNormSpacesL s) = true :=
    containsSeq_singleton.mpr (mem_normSpaces (by decide) h)
  simp only [looks_like_noise_line]
  apply iteT; apply iteT; apply iteT; apply iteT; apply iteT; apply iteT
  apply iteT; apply iteT; apply iteT; apply iteT; apply iteT
  exact iteC hat

set_option maxHeartbeats 4000000 in
theorem claim8_commas {s : List Char} (h1 : 3 ≤ s.count ',') (h2 : 8 < pyWordCount s) :
    looks_like_noise_line s = true := by
  have hc1 : 3 ≤ (pyNormSpacesL s).count ',' := by
    rw [count_normSpaces (by decide)]
    exact h1
  have hc2 : 8 < pyWordCount (pyNormSpacesL s) := by
    rw [wordCount_normSpaces]
    exact h2
  simp only [looks_like_noise_line]
  apply iteT; apply iteT; apply iteT; apply iteT; apply iteT; apply iteT; apply iteT
  apply iteT; apply iteT; apply iteT; apply iteT; apply iteT; apply iteT; apply iteT
  refine iteC ?_
  rw [decide_eq_true hc1, decide_eq_true hc2]
  rfl

theorem claim8_dc {s : List Char}
    (h : (∃ d ∈ s, isDigitC d = true) ∨
      ∃ cw ∈ countryWords, containsSeq cw.toList (pyLowerL (pyNormSpacesL s)) = true) :
    ((pyNormSpacesL s).any isDigitC ||
      countryWords.any fun c => containsSeq c.toList (pyStripWs (pyLowerL (pyNormSpacesL s)))) =
      true := by
  rcases h with ⟨d, hd, hdig⟩ | ⟨cw, hcw, hct⟩
  · have hdig' : (pyNormSpacesL s).any isDigitC = true :=
      List.any_eq_true.mpr ⟨d, mem_normSpaces (digit_nonspace hdig) hd, hdig⟩
    rw [hdig', Bool.true_or]
  · have hprops : cw.toList ≠ [] ∧ ∀ c ∈ cw.toList, pySpace c = false := by
      fin_cases hcw <;> exact ⟨by decide, by decide⟩
    have hct' : containsSeq cw.toList (pyStripWs (pyLowerL (pyNormSpacesL s))) = true :=
      containsSeq_stripWs hprops.1 hprops.2 hct
    have hanyc : (countryWords.any fun c =>
        containsSeq c.toList (pyStripWs (pyLowerL (pyNormSpacesL s)))) = true :=
      List.any_eq_true.mpr ⟨cw, hcw, hct'⟩
    rw [hanyc, Bool.or_true]

set_option maxHeartbeats 4000000 in
theorem claim8_affil {s : List Char} {kw : String} (hkw : kw ∈ affilKeywords)
    (hcontain : containsSeq kw.toList (pyLowerL (pyNormSpacesL s)) = true)
    (hcomma : ',' ∈ s)
    (hdc : ((pyNormSpacesL s).any isDigitC ||
      countryWords.any fun c => containsSeq c.toList (pyStripWs (pyLowerL (pyNormSpacesL s)))) =
      true) :
    looks_like_noise_line s = true := by
  have hkwprops : kw.toList ≠ [] ∧ ∀ c ∈ kw.toList, pySpace c = false := by
    fin_cases hkw <;> exact ⟨by decide, by decide⟩
  have hlow : containsSeq kw.toList (pyStripWs (pyLowerL (pyNormSpacesL s))) = true :=
    containsSeq_stripWs hkwprops.1 hkwprops.2 hcontain
  have hany : (affilKeywords.any fun k =>
      containsSeq k.toList (pyStripWs (pyLowerL (pyNormSpacesL s)))) = true :=
    List.any_eq_true.mpr ⟨kw, hkw, hlow⟩
  have hcomma' : containsSeq ",".toList (pyNormSpacesL s) = true :=
    containsSeq_singleton.mpr (mem_normSpaces (by decide) hcomma)
  simp only [looks_like_noise_line]
  apply iteT; apply iteT; apply iteT; apply iteT; apply iteT; apply iteT; apply iteT
  apply iteT; apply iteT; apply iteT; apply iteT; apply iteT; apply iteT; apply iteT
  apply iteT
  refine iteC ?_
  rw [hany, hcomma', hdc]
  rfl

/-- C8 (amended): the noise classifier flags every line containing an
email marker, every line with at least 3 commas and more than 8 words,
and every line whose lowercased whitespace-normalized form contains an
affiliation keyword, provided the line also contains a comma and either
a digit or a country marker.  An affiliation keyword with a digit but
no comma is not flagged. -/
theorem noise_line_rules :
    (∀ s : List Char, '@' ∈ s → looks_like_noise_line s = true) ∧
    (∀ s : List Char, 3 ≤ s.count ',' → 8 < pyWordCount s → looks_like_noise_line s = true) ∧
    (∀ (s : List Char) (kw : String), kw ∈ affilKeywords →
      containsSeq kw.toList (pyLowerL (pyNormSpacesL s)) = true →
      ',' ∈ s →
      ((∃ d ∈ s, isDigitC d = true) ∨
        ∃ cw ∈ countryWords, containsSeq cw.toList (pyLowerL (pyNormSpacesL s)) = true) →
      looks_like_noise_line s = true) :=
  ⟨fun _ h => claim8_at h, fun _ h1 h2 => claim8_commas h1 h2,
   fun _ _ hkw hc hcm hd => claim8_affil hkw hc hcm (claim8_dc hd)⟩

/-- Counterexample to C8 as stated: a line containing an affiliation
keyword and a digit but no comma is not classified as noise — the code
additionally requires a comma. -/
theorem affiliation_noise_counterexample :
    containsSeq "university".toList (pyLowerL "University Building 5".toList) = true ∧
    (∃ d ∈ "University Building 5".toList, isDigitC d = true) ∧
    looks_like_noise_line "University Building 5".toList = false := by
  refine ⟨by decide, ⟨'5', by decide, by decide⟩, by decide⟩

/-- Witness for C8's amended rules at concrete lines, exercising both
the digit and the country-marker disjuncts of the affiliation rule. -/
theorem noise_line_rules_witness :
    looks_like_noise_line "contact me@here now".toList = true ∧
    looks_like_noise_line "a, b, c, one two three four five six seven".toList = true ∧
    looks_like_noise_line "Dept, University 5".toList = true ∧
    looks_like_noise_line "University of Bonn, Germany".toList = true :=
  ⟨noise_line_rules.1 _ (by decide),
   noise_line_rules.2.1 _ (by decide) (by decide),
   noise_line_rules.2.2 _ "university" (by decide) (by decide) (by decide)
     (Or.inl ⟨'5', by decide, by decide⟩),
   noise_line_rules.2.2 _ "university" (by decide) (by decide) (by decide)
     (Or.inr ⟨"germany", by decide, by decide⟩)⟩

end DL
